import Mathlib

/-!
Verification of the cluster transport core of TrafficServer
(`src/iocore/cluster/connection.cc`, `src/iocore/cluster/nio.cc`).

The development shallowly embeds the relevant functions of two C source
files.  Machine integers are modelled as `Nat`/`Int` (value ranges stay far
below 2^31 on every concrete input considered; overflow is noted where it
could matter).  Syscall results (`connect`, `read`, `writev`) are injected
as explicit parameters, and the side effects of each function are returned
as an updated state value.

Numeric constants that live in headers outside the two source files
(`MSG_HEADER_LENGTH`, `WRITEV_ARRAY_SIZE`, ..., `CLUSTER_MAJOR_VERSION`)
are carried as explicit parameters, so every theorem quantifies over them
or fixes a concrete instantiation.
-/

/-- Linux errno values used by the sources (from `<errno.h>`). -/
def EAGAIN : Int := 11

/-- errno EINVAL. -/
def EINVAL : Int := 22

/-- errno ECONNRESET. -/
def ECONNRESET : Int := 104

/-- errno EIO (named `EIO_errno` here because `EIO` is taken by Lean core). -/
def EIO_errno : Int := 5

/-- errno ENOSPC. -/
def ENOSPC : Int := 28

/-! ## Hello handshake (`connection.cc`)

`HelloMessage` carries four unsigned 32-bit fields (spec section 6); the
version constants `CLUSTER_MAJOR_VERSION`, `CLUSTER_MINOR_VERSION`,
`MIN_CLUSTER_MAJOR_VERSION`, `MIN_CLUSTER_MINOR_VERSION` live in a header
outside `src/` and are passed as parameters below. -/

structure HelloMessage where
  major : Nat
  minor : Nat
  min_major : Nat
  min_minor : Nat
deriving DecidableEq, Repr

/-- The hello body written by `fill_send_buffer` (`connection.cc:215-241`):
whatever the func id (`HELLO_REQUEST` or `HELLO_RESPONSE`), the body holds
the node's own four version constants.  The result pairs the func id put in
the header with the hello body. -/
def fill_send_buffer (CLUSTER_MAJOR CLUSTER_MINOR MIN_MAJOR MIN_MINOR : Nat)
    (func_id : Int) : Int × HelloMessage :=
  (func_id, ⟨CLUSTER_MAJOR, CLUSTER_MINOR, MIN_MAJOR, MIN_MINOR⟩)

/-- The version-selection loop of `deal_hello_message`
(`connection.cc:290-294`):

    for (major=pHelloMessage->major; major>=pHelloMessage->min_major; --major) {
      if ((major >= MIN_CLUSTER_MAJOR_VERSION) && (major <= CLUSTER_MAJOR_VERSION)) {
        proto_major = major;
      }
    }

The loop has no `break`: every candidate in range overwrites `proto_major`,
so the LAST assignment (the smallest candidate) wins.  `major` is a C
`uint32_t`; when `min_major = 0` the C loop never terminates (the unsigned
counter wraps), so this embedding performs the `major = 0` iteration and
stops — it agrees with the C code on every input on which the C code
terminates (`min_major ≥ 1`). -/
def hello_scan_major (MIN_MAJOR CLUSTER_MAJOR min_major : Nat) :
    Nat → Int → Int
  | 0, acc =>
      if 0 < min_major then acc
      else if MIN_MAJOR = 0 then (0 : Int) else acc
  | m + 1, acc =>
      if m + 1 < min_major then acc
      else hello_scan_major MIN_MAJOR CLUSTER_MAJOR min_major m
        (if MIN_MAJOR ≤ m + 1 ∧ m + 1 ≤ CLUSTER_MAJOR then ((m : Int) + 1) else acc)

/-- The negotiation part of `deal_hello_message` (`connection.cc:283-317`),
after the magic/data_len/func_id guards have passed:
`some (proto_major, proto_minor)` on success, `none` for the
`EINVAL` (incompatible major) return.  `proto_minor` adopts the peer's
minor when the negotiated major equals the peer's major, else 0
(`connection.cc:295-309`). -/
def deal_hello_negotiate (MIN_MAJOR CLUSTER_MAJOR : Nat) (h : HelloMessage) :
    Option (Int × Int) :=
  let proto_major := hello_scan_major MIN_MAJOR CLUSTER_MAJOR h.min_major h.major (-1)
  if 0 < proto_major then
    some (proto_major, if proto_major = (h.major : Int) then (h.minor : Int) else 0)
  else
    none

/-- Modelled from the spec: "pick the highest value [in the peer's range]
that also lies within our [MIN_CLUSTER_MAJOR, CLUSTER_MAJOR]" — the
refinement target C1 compares the code against. -/
def spec_highest_common_major (MIN_MAJOR CLUSTER_MAJOR major min_major : Nat) :
    Option Nat :=
  if max MIN_MAJOR min_major ≤ min CLUSTER_MAJOR major then
    some (min CLUSTER_MAJOR major)
  else
    none

/-- C1: the claim says `deal_hello_message` selects the HIGHEST value of the
peer's range `[min_major, major]` that lies within our
`[MIN_CLUSTER_MAJOR_VERSION, CLUSTER_MAJOR_VERSION]`.  The loop at
`connection.cc:290-294` has no `break`, so the last (lowest) match wins.
With our range `[1, 2]` and a peer hello `(major = 2, minor = 7,
min_major = 1, min_minor = 0)`, both 1 and 2 are common; the claim (and
the code's own comment, "stepping down ... until a match is found") wants
major 2 with the peer's minor 7, but the code negotiates major 1 with
minor 0. -/
theorem deal_hello_negotiate_picks_lowest_common_major :
    deal_hello_negotiate 1 2 ⟨2, 7, 1, 0⟩ = some (1, 0) ∧
    spec_highest_common_major 1 2 2 1 = some 2 := by
  constructor <;> decide

/-- C6: handshake symmetry.  With `fill_send_buffer`
(`connection.cc:215-241`) the hello body a node emits is its four version
constants and does not depend on the func id, so two nodes built with the
same constants exchange identical hello tuples; each side then runs the
same negotiation (`deal_hello_message`, `connection.cc:283-317`) on that
same tuple with the same constants, hence both compute the same negotiated
`(major, minor)` — or both get `none` (the `incompatible-major` EINVAL). -/
theorem deal_hello_negotiate_symmetric (MIN_MAJOR CLUSTER_MAJOR CLUSTER_MINOR MIN_MINOR : Nat)
    (req_func_id resp_func_id : Int) :
    (fill_send_buffer CLUSTER_MAJOR CLUSTER_MINOR MIN_MAJOR MIN_MINOR req_func_id).2 =
      (fill_send_buffer CLUSTER_MAJOR CLUSTER_MINOR MIN_MAJOR MIN_MINOR resp_func_id).2 ∧
    deal_hello_negotiate MIN_MAJOR CLUSTER_MAJOR
        (fill_send_buffer CLUSTER_MAJOR CLUSTER_MINOR MIN_MAJOR MIN_MINOR req_func_id).2 =
      deal_hello_negotiate MIN_MAJOR CLUSTER_MAJOR
        (fill_send_buffer CLUSTER_MAJOR CLUSTER_MINOR MIN_MAJOR MIN_MINOR resp_func_id).2 :=
  ⟨rfl, rfl⟩

/-! ## nio.cc data model

Constants that live in headers outside `src/` are carried in `NioConsts`.
`read_buffer_size` defaults to 2 MiB (`nio.cc:56`) but is configurable
(`nio.cc:338`), so it is a parameter too. -/

structure NioConsts where
  MSG_HEADER_LENGTH : Nat
  WRITEV_ARRAY_SIZE : Nat
  WRITEV_ITEM_ONCE : Nat
  WRITE_MAX_COMBINE_BYTES : Nat
  MAX_MSG_LENGTH : Nat
  read_buffer_size : Nat
deriving DecidableEq, Repr

/-- The wire header fields the embedded functions read.  `session_id`,
`msg_seq` and the optional magic are never inspected by the code modelled
here (magic checks are under `#ifdef CHECK_MAGIC_NUMBER`, modelled off),
so they are omitted. -/
structure MsgHeader where
  func_id : Int
  data_len : Nat
  aligned_data_len : Nat
deriving DecidableEq, Repr

/-- `OutMessage.data_type` (`DATA_TYPE_OBJECT` vs the inline mini buffer). -/
inductive OutDataType
  | object
  | inline
deriving DecidableEq, Repr

/-- An outbound message: header, send cursor, and the payload either as a
chain of buffer blocks (each recorded by its `read_avail()` byte count —
the bytes themselves never influence control flow) or as the inline
`mini_buff` (whose content is likewise irrelevant; `data_len` fixes its
length). -/
structure OutMessage where
  header : MsgHeader
  bytes_sent : Nat
  data_type : OutDataType
  blocks : List Nat
deriving DecidableEq, Repr

/-- Fallback value for out-of-bounds message lookups (C would dereference
a stale pointer there; the bounds are established by the invariants). -/
def dfltOutMessage : OutMessage := ⟨⟨0, 0, 0⟩, 0, .inline, []⟩

/-- The three priority FIFOs of a socket context (`send_queues[0..2]`,
`PRIORITY_COUNT = 3`), each kept as a Lean list with the head first; the
C `tail` pointer is the list's last element. -/
structure Queues (α : Type) where
  q0 : List α
  q1 : List α
  q2 : List α
deriving DecidableEq, Repr

/-- Indexing a `Queues` with a C `int` priority: the embedded code only
ever uses 0, 1, 2. -/
def Queues.get {α : Type} (qs : Queues α) (p : Nat) : List α :=
  if p = 0 then qs.q0 else if p = 1 then qs.q1 else qs.q2

def Queues.set {α : Type} (qs : Queues α) (p : Nat) (l : List α) : Queues α :=
  if p = 0 then { qs with q0 := l }
  else if p = 1 then { qs with q1 := l }
  else { qs with q2 := l }

/-- The per-worker statistics fields touched by the embedded functions
(`SocketStats`, summed in `log_nio_stats`). -/
structure SockStats where
  send_retry_count : Nat
  call_writev_count : Nat
  send_bytes : Nat
  send_msg_count : Nat
  push_msg_count : Nat
  push_msg_bytes : Nat
  fail_msg_count : Nat
  fail_msg_bytes : Nat
deriving DecidableEq, Repr

/-- The slice of `SocketContext` the embedded send-path functions read and
write: the three priority queues, the resume priority `queue_index`, the
purge counter `version`, the socket handle (`-1` when closed) and the
owning worker's stats. -/
structure SockContext where
  send_queues : Queues OutMessage
  queue_index : Nat
  version : Nat
  sock : Int
  stats : SockStats
deriving DecidableEq, Repr

/-! ## push_to_send_queue (`nio.cc:1627-1670`) -/

/-- `push_to_send_queue`: under the queue lock, fail with `EINVAL` when the
socket context's `version` differs from the caller's observed
`sessionVersion` or the socket is closed (`sock < 0`) — bumping
`fail_msg_count`/`fail_msg_bytes` and leaving the queue untouched;
otherwise link the message at the tail of the chosen priority FIFO, bump
`push_msg_count`/`push_msg_bytes` and return 0. -/
def push_to_send_queue (c : NioConsts) (s : SockContext) (m : OutMessage)
    (priority : Nat) (sessionVersion : Nat) : Int × SockContext :=
  if s.version ≠ sessionVersion ∨ s.sock < 0 then
    (EINVAL, { s with stats := { s.stats with
        fail_msg_count := s.stats.fail_msg_count + 1,
        fail_msg_bytes := s.stats.fail_msg_bytes +
          (c.MSG_HEADER_LENGTH + m.header.aligned_data_len) } })
  else
    (0, { s with
        send_queues := s.send_queues.set priority (s.send_queues.get priority ++ [m]),
        stats := { s.stats with
          push_msg_count := s.stats.push_msg_count + 1,
          push_msg_bytes := s.stats.push_msg_bytes +
            (c.MSG_HEADER_LENGTH + m.header.aligned_data_len) } })

/-! ## insert_into_send_queue_head (`nio.cc:1672-1700`) -/

/-- `insert_into_send_queue_head`: empty queue → the message becomes head
and tail; head still untouched (`bytes_sent == 0`) → prepend; otherwise
splice right after the head (becoming tail when the head had no
successor).  No version or socket check: the push counters are bumped and
0 returned unconditionally. -/
def insert_into_send_queue_head (c : NioConsts) (s : SockContext)
    (m : OutMessage) (priority : Nat) : Int × SockContext :=
  let q := s.send_queues.get priority
  let q' : List OutMessage :=
    match q with
    | [] => [m]
    | h :: t => if h.bytes_sent = 0 then m :: h :: t else h :: m :: t
  (0, { s with
      send_queues := s.send_queues.set priority q',
      stats := { s.stats with
        push_msg_count := s.stats.push_msg_count + 1,
        push_msg_bytes := s.stats.push_msg_bytes +
          (c.MSG_HEADER_LENGTH + m.header.aligned_data_len) } })

/-- C3: `push_to_send_queue` fails with `EINVAL` (stale-session), leaves
every queue unchanged and bumps `fail_msg_count` by 1 and `fail_msg_bytes`
by `MSG_HEADER_LENGTH + aligned_data_len` whenever the context's version
differs from the caller's or the socket is closed; otherwise it appends
the message at the tail of the chosen priority FIFO, leaves the other
queues unchanged, bumps the push counters and returns 0
(`nio.cc:1627-1670`). -/
theorem push_to_send_queue_spec (c : NioConsts) (s : SockContext)
    (m : OutMessage) (p v : Nat) :
    (s.version ≠ v ∨ s.sock < 0 →
      push_to_send_queue c s m p v =
        (EINVAL, { s with stats := { s.stats with
            fail_msg_count := s.stats.fail_msg_count + 1,
            fail_msg_bytes := s.stats.fail_msg_bytes +
              (c.MSG_HEADER_LENGTH + m.header.aligned_data_len) } })) ∧
    (s.version = v → 0 ≤ s.sock →
      push_to_send_queue c s m p v =
        (0, { s with
            send_queues := s.send_queues.set p (s.send_queues.get p ++ [m]),
            stats := { s.stats with
              push_msg_count := s.stats.push_msg_count + 1,
              push_msg_bytes := s.stats.push_msg_bytes +
                (c.MSG_HEADER_LENGTH + m.header.aligned_data_len) } })) := by
  constructor
  · intro h
    simp only [push_to_send_queue, if_pos h]
  · intro hv hs
    have : ¬ (s.version ≠ v ∨ s.sock < 0) := by
      push_neg
      exact ⟨hv, hs⟩
    simp only [push_to_send_queue, if_neg this]

/-- Witness for C3 at a concrete input: a closed socket (`sock = -1`), so
the stale-session branch fires (we instantiate the first conjunct). -/
theorem push_to_send_queue_spec_witness :
    push_to_send_queue ⟨48, 128, 16, 262144, 2097152, 2097152⟩
        ⟨⟨[], [], []⟩, 0, 3, -1, ⟨0, 0, 0, 0, 0, 0, 0, 0⟩⟩
        ⟨⟨5, 10, 16⟩, 0, .inline, []⟩ 1 3 =
      (EINVAL, ⟨⟨[], [], []⟩, 0, 3, -1, ⟨0, 0, 0, 0, 0, 0, 1, 64⟩⟩) := by
  have h := (push_to_send_queue_spec ⟨48, 128, 16, 262144, 2097152, 2097152⟩
      ⟨⟨[], [], []⟩, 0, 3, -1, ⟨0, 0, 0, 0, 0, 0, 0, 0⟩⟩
      ⟨⟨5, 10, 16⟩, 0, .inline, []⟩ 1 3).1 (by decide)
  exact h.trans (by decide)

/-- C5: placement performed by `insert_into_send_queue_head`
(`nio.cc:1672-1700`): empty queue → the message becomes the whole queue
(head = tail = msg); head not yet touched (`bytes_sent = 0`) → prepended
before the head; otherwise spliced immediately after the head — in
particular, when the head had no successor, the message becomes the last
element (the tail).  Queues of other priorities are untouched. -/
theorem insert_into_send_queue_head_spec (c : NioConsts) (s : SockContext)
    (m : OutMessage) (p : Nat) :
    (s.send_queues.get p = [] →
      ((insert_into_send_queue_head c s m p).2).send_queues =
        s.send_queues.set p [m]) ∧
    (∀ h t, s.send_queues.get p = h :: t → h.bytes_sent = 0 →
      ((insert_into_send_queue_head c s m p).2).send_queues =
        s.send_queues.set p (m :: h :: t)) ∧
    (∀ h t, s.send_queues.get p = h :: t → h.bytes_sent ≠ 0 →
      ((insert_into_send_queue_head c s m p).2).send_queues =
        s.send_queues.set p (h :: m :: t)) ∧
    (∀ h, s.send_queues.get p = [h] → h.bytes_sent ≠ 0 →
      ((insert_into_send_queue_head c s m p).2).send_queues =
        s.send_queues.set p [h, m]) := by
  refine ⟨fun he => ?_, fun h t he hb => ?_, fun h t he hb => ?_, fun h he hb => ?_⟩
  · simp only [insert_into_send_queue_head, he]
  · simp only [insert_into_send_queue_head, he, if_pos hb]
  · simp only [insert_into_send_queue_head, he, if_neg hb]
  · simp only [insert_into_send_queue_head, he, if_neg hb]

/-- Witness for C5 at a concrete input: a single partially-sent head, so
the message is spliced after it and becomes the tail. -/
theorem insert_into_send_queue_head_spec_witness :
    ((insert_into_send_queue_head ⟨48, 128, 16, 262144, 2097152, 2097152⟩
        ⟨⟨[⟨⟨7, 3, 8⟩, 20, .inline, []⟩], [], []⟩, 0, 0, 4, ⟨0, 0, 0, 0, 0, 0, 0, 0⟩⟩
        ⟨⟨9, 0, 0⟩, 0, .inline, []⟩ 0).2).send_queues =
      (Queues.mk [⟨⟨7, 3, 8⟩, 20, .inline, []⟩] [] []).set 0
        [⟨⟨7, 3, 8⟩, 20, .inline, []⟩, ⟨⟨9, 0, 0⟩, 0, .inline, []⟩] := by
  have h := ((insert_into_send_queue_head_spec ⟨48, 128, 16, 262144, 2097152, 2097152⟩
      ⟨⟨[⟨⟨7, 3, 8⟩, 20, .inline, []⟩], [], []⟩, 0, 0, 4, ⟨0, 0, 0, 0, 0, 0, 0, 0⟩⟩
      ⟨⟨9, 0, 0⟩, 0, .inline, []⟩ 0).2.2.2) ⟨⟨7, 3, 8⟩, 20, .inline, []⟩
      (by decide) (by decide)
  exact h

/-- C9 (implicit): unlike the tail-append `push_to_send_queue`,
`insert_into_send_queue_head` performs no version check and no
closed-socket check: for every context (even `sock = -1` or an arbitrary
`version`), every message and every priority it returns 0, links the
message, and bumps `push_msg_count` by 1 and `push_msg_bytes` by
`MSG_HEADER_LENGTH + aligned_data_len` unconditionally — in particular
`fail_msg_count`/`fail_msg_bytes` stay untouched and the linked queue is
never left unchanged (`nio.cc:1672-1700` vs `nio.cc:1627-1656`). -/
theorem insert_into_send_queue_head_unconditional (c : NioConsts)
    (s : SockContext) (m : OutMessage) (p : Nat) :
    (insert_into_send_queue_head c s m p).1 = 0 ∧
    ((insert_into_send_queue_head c s m p).2).stats.push_msg_count =
      s.stats.push_msg_count + 1 ∧
    ((insert_into_send_queue_head c s m p).2).stats.push_msg_bytes =
      s.stats.push_msg_bytes + (c.MSG_HEADER_LENGTH + m.header.aligned_data_len) ∧
    ((insert_into_send_queue_head c s m p).2).stats.fail_msg_count =
      s.stats.fail_msg_count ∧
    ((insert_into_send_queue_head c s m p).2).stats.fail_msg_bytes =
      s.stats.fail_msg_bytes ∧
    (((insert_into_send_queue_head c s m p).2).send_queues.get p).length =
      (s.send_queues.get p).length + 1 := by
  refine ⟨rfl, rfl, rfl, rfl, rfl, ?_⟩
  simp only [insert_into_send_queue_head]
  rcases hq : s.send_queues.get p with _ | ⟨h, t⟩
  · simp [Queues.get, Queues.set] at hq ⊢
    split <;> simp_all
  · simp only [Queues.get, Queues.set] at hq ⊢
    split <;> split <;> simp_all <;> split <;> simp_all

/-! ## Connection controller reconnection (`connection.cc`) -/

/-- `ConnectState` (`connection.cc:49-55`). -/
inductive ConnState
  | NotConnect
  | Connecting
  | Connected
  | SendData
  | RecvData
deriving DecidableEq, Repr

/-- The fields of `ConnectContext` (`connection.cc:57-72`) that
`alloc_connect_context`, `make_connection`, `do_connect` and
`do_reconnect` read or write.  `sock` is the bound socket context's
handle (checked through `pSockContext->sock`); times are in
milliseconds. -/
structure ConnCtx where
  sock : Int
  need_reconnect : Bool
  need_check_timeout : Bool
  connect_count : Nat
  connect_start_time : Int
  reconnect_interval : Int
  state : ConnState
deriving DecidableEq, Repr

/-- The field initialisation done by `alloc_connect_context`
(`connection.cc:957-964`) once a pool slot is found:
`reconnect_interval` starts at 100 ms, `connect_count` at 0. -/
def alloc_connect_context_init (ctx : ConnCtx) : ConnCtx :=
  { ctx with
    need_reconnect := false
    need_check_timeout := false
    reconnect_interval := 100
    connect_count := 0
    state := .NotConnect }

/-- The `ConnectContext` field effects of `do_connect`
(`connection.cc:846-918`): bump `connect_count`, enter `Connecting`, and
stamp `connect_start_time` with the current time (`connection.cc:853-886`).
The socket syscall outcomes (which may further flip `need_check_timeout`
or tear the context down) are outside this per-field model. -/
def do_connect_ctx (ctx : ConnCtx) (now : Int) : ConnCtx :=
  { ctx with
    connect_count := ctx.connect_count + 1
    state := .Connecting
    connect_start_time := now }

/-- `make_connection` (`connection.cc:1017-1042`) on a fresh context:
`need_reconnect := true`, `reconnect_interval := 100`, then `do_connect`. -/
def make_connection_ctx (ctx : ConnCtx) (now : Int) : ConnCtx :=
  do_connect_ctx { ctx with need_reconnect := true, reconnect_interval := 100 } now

/-- What `do_reconnect` (`connection.cc:1306-1373`) decides for one
connect context on one controller pass. -/
inductive ReconnectAction
  | skip
  | retry (ctx : ConnCtx)
  | release
deriving DecidableEq, Repr

/-- One context's treatment inside `do_reconnect`'s scan
(`connection.cc:1326-1368`): contexts with a live socket are skipped;
reconnectable contexts wait until the current interval has elapsed since
the last connect start, then double the interval, cap it at 1000 ms for a
dead peer and 30000 ms otherwise, and re-enter the client connect path
(`do_connect`); contexts with `need_reconnect` false are released to the
machine's client freelist. -/
def do_reconnect_step (ctx : ConnCtx) (dead : Bool) (now : Int) :
    ReconnectAction :=
  if 0 ≤ ctx.sock then .skip
  else if ctx.need_reconnect then
    if 0 < ctx.connect_count then
      if now - ctx.connect_start_time < ctx.reconnect_interval then .skip
      else
        let doubled := ctx.reconnect_interval * 2
        let cap : Int := if dead then 1000 else 30000
        let interval := if cap < doubled then cap else doubled
        .retry (do_connect_ctx
          { ctx with reconnect_interval := interval, need_check_timeout := false } now)
    else .skip
  else .release

/-- C7: the client reconnect backoff.  The interval starts at 100 ms
(both `alloc_connect_context` and `make_connection` set it); a retry is
attempted only once at least the current interval has elapsed since the
last connect start; and each scheduled retry doubles the interval, capped
at 30000 ms for a live peer and 1000 ms for a peer marked dead, before
re-entering the connect path (which bumps `connect_count` and re-stamps
`connect_start_time`). -/
theorem do_reconnect_backoff (ctx : ConnCtx) (dead : Bool) (now : Int) :
    ((alloc_connect_context_init ctx).reconnect_interval = 100 ∧
      (make_connection_ctx ctx now).reconnect_interval = 100) ∧
    (ctx.sock < 0 → ctx.need_reconnect = true → 0 < ctx.connect_count →
      now - ctx.connect_start_time < ctx.reconnect_interval →
      do_reconnect_step ctx dead now = .skip) ∧
    (∀ ctx', do_reconnect_step ctx dead now = .retry ctx' →
      ctx.sock < 0 ∧ ctx.need_reconnect = true ∧ 0 < ctx.connect_count ∧
      ctx.reconnect_interval ≤ now - ctx.connect_start_time ∧
      ctx'.reconnect_interval =
        min (ctx.reconnect_interval * 2) (if dead then 1000 else 30000) ∧
      ctx'.connect_count = ctx.connect_count + 1 ∧
      ctx'.connect_start_time = now) := by
  refine ⟨⟨rfl, rfl⟩, fun hs hn hc ht => ?_, fun ctx' hr => ?_⟩
  · simp only [do_reconnect_step, if_neg (not_le.mpr hs), hn, if_pos trivial,
      if_pos hc, if_pos ht]
  · by_cases hs : 0 ≤ ctx.sock
    · simp [do_reconnect_step, if_pos hs] at hr
    · by_cases hn : ctx.need_reconnect
      · by_cases hc : 0 < ctx.connect_count
        · by_cases ht : now - ctx.connect_start_time < ctx.reconnect_interval
          · simp [do_reconnect_step, if_neg hs, hn, if_pos hc, if_pos ht] at hr
          · simp only [do_reconnect_step, if_neg hs, hn, if_true, if_pos hc,
              if_neg ht, ReconnectAction.retry.injEq] at hr
            subst hr
            refine ⟨not_le.mp hs, hn, hc, not_lt.mp ht, ?_, rfl, rfl⟩
            simp only [do_connect_ctx]
            rcases le_or_lt (ctx.reconnect_interval * 2) (if dead then 1000 else 30000)
              with h | h
            · rw [if_neg (not_lt.mpr h), min_eq_left h]
            · rw [if_pos h, min_eq_right h.le]
        · simp [do_reconnect_step, if_neg hs, hn, if_neg hc] at hr
      · simp [do_reconnect_step, if_neg hs, hn] at hr

/-- Witness for C7 at a concrete input: interval 100, last attempt at
t = 0, now = 150 ≥ 100, live peer → retry with the interval doubled to
200, `connect_count` bumped to 2, start time re-stamped. -/
theorem do_reconnect_backoff_witness :
    (-1 : Int) < 0 ∧ true = true ∧ (0 : Nat) < 1 ∧
    (100 : Int) ≤ 150 - 0 ∧
    (⟨-1, true, false, 2, 150, 200, .Connecting⟩ : ConnCtx).reconnect_interval =
      min ((100 : Int) * 2) (if false then 1000 else 30000) ∧
    (⟨-1, true, false, 2, 150, 200, .Connecting⟩ : ConnCtx).connect_count = 1 + 1 ∧
    (⟨-1, true, false, 2, 150, 200, .Connecting⟩ : ConnCtx).connect_start_time = 150 :=
  (do_reconnect_backoff ⟨-1, true, true, 1, 0, 100, .NotConnect⟩ false 150).2.2
    ⟨-1, true, false, 2, 150, 200, .Connecting⟩ (by decide)

/-! ## deal_read_event frame reassembly (`nio.cc:1162-1393`)

One iteration of the `while (1)` frame-consumption loop.  The `read()`
call and its errno handling happen before the loop; the loop body is a
pure decision over the reader state.  Buffer contents are abstracted:
offsets are `Nat`s, and the in-progress frame's header (the bytes at
`msg_header`) is carried as a parsed `MsgHeader` field, valid while a
frame is being reassembled.  `ALIGN_BYTES = 8` (8-byte alignment, spec
section 3). -/

structure ReaderManager where
  buf_size : Nat
  current : Nat
  msg_header : Nat
  hdr : MsgHeader
  blocks : List Nat
  recv_body_bytes : Nat
deriving DecidableEq, Repr

/-- The outcome of one loop iteration: `fail e` for a `return e` with a
protocol error; `wait st` for the `return result` paths (need more bytes,
possibly after compacting into or allocating a new buffer); `dispatch`
for a completed frame handed to `deal_message`, with the true-body block
list and the successor state (whose `hdr` field becomes meaningful again
once the next header's bytes are in the buffer). -/
inductive ReadStep
  | fail (e : Int)
  | wait (st : ReaderManager)
  | dispatch (h : MsgHeader) (body : List Nat) (st : ReaderManager)
deriving DecidableEq, Repr

def ReadStep.isDispatch : ReadStep → Bool
  | .dispatch _ _ _ => true
  | _ => false

/-- The body of one frame-processing iteration once `msg_bytes`,
`recv_body` and the first-block flag are known (`nio.cc:1250-1389`).
The `#ifdef` blocks (magic check, MSG_TIME_STAT) are modelled off.  The
`recv_body_bytes % ALIGN_BYTES != 0` branch logs and returns `result`
after a release-assert (`nio.cc:1323-1329`); it is modelled as `wait`. -/
def read_step_parse (c : NioConsts) (st : ReaderManager)
    (msg_bytes recv_body : Nat) (first : Bool) : ReadStep :=
  if c.MAX_MSG_LENGTH < st.hdr.aligned_data_len then .fail ENOSPC
  else if recv_body < st.hdr.aligned_data_len then
    -- message body not complete yet (`nio.cc:1286-1348`)
    if st.hdr.aligned_data_len ≤ recv_body + (st.buf_size - st.current) then
      .wait st  -- remaining buffer is enough, keep reading in place
    else
      let padding_body_bytes := recv_body - st.recv_body_bytes
      let recv_padding_len : Int := (recv_body : Int) - (st.hdr.data_len : Int)
      let current_true_body_bytes : Int :=
        if 0 < recv_padding_len then
          (padding_body_bytes : Int) - recv_padding_len
        else (padding_body_bytes : Int)
      if st.hdr.func_id < 0 then
        -- must fit in a single buffer (`nio.cc:1303-1315`)
        if ¬ first then .fail EINVAL
        else .wait { st with
          buf_size := c.read_buffer_size, current := msg_bytes, msg_header := 0 }
      else if 4096 ≤ st.buf_size - st.current then .wait st
      else if recv_body % 8 ≠ 0 then .wait st
      else
        let st1 :=
          if 0 < current_true_body_bytes then
            { st with blocks := st.blocks ++ [current_true_body_bytes.toNat] }
          else st
        let st2 := { st1 with recv_body_bytes := recv_body }
        if first then
          if 0 < current_true_body_bytes then
            -- ALLOC_READER_BUFFER keeps msg_header pointing into the old
            -- buffer; the field is unused once blocks is non-empty
            .wait { st2 with buf_size := c.read_buffer_size, current := 0 }
          else
            .wait { st2 with
              buf_size := c.read_buffer_size, current := msg_bytes, msg_header := 0 }
        else
          .wait { st2 with buf_size := c.read_buffer_size, current := 0 }
  else
    -- body complete: deliver the frame (`nio.cc:1351-1389`)
    let padding_body_bytes :=
      if first then st.hdr.aligned_data_len
      else st.hdr.aligned_data_len - st.recv_body_bytes
    let padding_len := st.hdr.aligned_data_len - st.hdr.data_len
    let current_true_body_bytes :=
      if 0 < padding_len then
        if padding_len < padding_body_bytes then padding_body_bytes - padding_len
        else 0
      else padding_body_bytes
    let body :=
      if 0 < current_true_body_bytes then st.blocks ++ [current_true_body_bytes]
      else st.blocks
    .dispatch st.hdr body { st with
      blocks := []
      recv_body_bytes := 0
      msg_header :=
        if first then st.msg_header + c.MSG_HEADER_LENGTH + padding_body_bytes
        else padding_body_bytes }

/-- One iteration of `deal_read_event`'s frame loop (`nio.cc:1213-1390`):
on the first block the frame starts at `msg_header` inside the current
buffer (with header-compaction when fewer than `MSG_HEADER_LENGTH` bytes
are in and less than 4 KiB of buffer remains); on continuation blocks the
body continues from the buffer start. -/
def read_step (c : NioConsts) (st : ReaderManager) : ReadStep :=
  if st.blocks = [] then
    let msg_bytes := st.current - st.msg_header
    if msg_bytes < c.MSG_HEADER_LENGTH then
      if st.buf_size - st.current < 4096 then
        if 0 < msg_bytes then
          .wait { st with
            buf_size := c.read_buffer_size, current := msg_bytes, msg_header := 0 }
        else
          .wait { st with
            buf_size := c.read_buffer_size, current := 0, msg_header := 0 }
      else .wait st
    else read_step_parse c st msg_bytes (msg_bytes - c.MSG_HEADER_LENGTH) true
  else read_step_parse c st st.current (st.recv_body_bytes + st.current) false

/-- C8 counterexample: the claim states that for a `func_id < 0` frame,
"if its body is incomplete and reassembly is no longer on the first
block, the function fails with EINVAL".  The code checks first whether
the remaining buffer can complete the body (`nio.cc:1287-1291`) and, if
so, returns to wait for more bytes — no EINVAL.  Concrete state: header
`func_id = -1`, `aligned_data_len = 64`, one completed 8-byte block
(so not on the first block), 16 of 64 body bytes in, 1016 bytes of
buffer remaining (enough): the step waits instead of failing. -/
theorem read_step_negative_func_not_first_no_einval :
    read_step ⟨32, 128, 16, 262144, 4096, 1024⟩
        ⟨1024, 8, 0, ⟨-1, 64, 64⟩, [8], 8⟩ =
      ReadStep.wait ⟨1024, 8, 0, ⟨-1, 64, 64⟩, [8], 8⟩ ∧
    read_step ⟨32, 128, 16, 262144, 4096, 1024⟩
        ⟨1024, 8, 0, ⟨-1, 64, 64⟩, [8], 8⟩ ≠ ReadStep.fail EINVAL ∧
    (⟨-1, 64, 64⟩ : MsgHeader).func_id < 0 ∧
    ([8] : List Nat) ≠ [] ∧
    (8 + 8 : Nat) < 64 := by
  refine ⟨by decide, by decide, by decide, by decide, by decide⟩

/-- C8 (amended): a `func_id < 0` frame must fit in a single receive
buffer.  (1) When its body is incomplete, the remaining buffer space
cannot complete it, and reassembly is no longer on the first block,
`deal_read_event` fails with EINVAL (`nio.cc:1303-1311`).  (2) Under the
reader invariants (a non-empty block chain only ever belongs to a
`func_id ≥ 0` frame, the write cursor stays within the buffer, buffers
are `read_buffer_size` bytes, `data_len ≤ aligned_data_len`), any frame
with `func_id < 0` that the step dispatches has
`data_len ≤ read_buffer_size - MSG_HEADER_LENGTH`; an oversized one is
never delivered. -/
theorem read_step_negative_func_single_buffer (c : NioConsts) (st : ReaderManager)
    (hcur : st.current ≤ st.buf_size)
    (hbuf : st.buf_size ≤ c.read_buffer_size)
    (hdl : st.hdr.data_len ≤ st.hdr.aligned_data_len) :
    (st.blocks ≠ [] → st.hdr.aligned_data_len ≤ c.MAX_MSG_LENGTH →
      st.recv_body_bytes + st.current < st.hdr.aligned_data_len →
      st.recv_body_bytes + st.current + (st.buf_size - st.current) <
        st.hdr.aligned_data_len →
      st.hdr.func_id < 0 →
      read_step c st = .fail EINVAL) ∧
    ((st.blocks ≠ [] → 0 ≤ st.hdr.func_id) →
      (read_step c st).isDispatch = true → st.hdr.func_id < 0 →
      st.hdr.data_len ≤ c.read_buffer_size - c.MSG_HEADER_LENGTH) := by
  constructor
  · intro hb hmax hincomplete hshort hneg
    simp only [read_step, if_neg hb, read_step_parse,
      if_neg (not_lt.mpr hmax), if_pos hincomplete,
      if_neg (not_le.mpr hshort), if_pos hneg]
    simp
  · intro hinv hdisp hneg
    have hb : st.blocks = [] := by
      by_contra hb
      exact absurd (hinv hb) (not_le.mpr hneg)
    simp only [read_step, if_pos hb] at hdisp
    by_cases hm : st.current - st.msg_header < c.MSG_HEADER_LENGTH
    · rw [if_pos hm] at hdisp
      repeat split at hdisp
      all_goals simp [ReadStep.isDispatch] at hdisp
    · rw [if_neg hm] at hdisp
      simp only [read_step_parse] at hdisp
      by_cases hmax : c.MAX_MSG_LENGTH < st.hdr.aligned_data_len
      · simp [if_pos hmax, ReadStep.isDispatch] at hdisp
      · rw [if_neg hmax] at hdisp
        by_cases hdone :
            st.current - st.msg_header - c.MSG_HEADER_LENGTH < st.hdr.aligned_data_len
        · rw [if_pos hdone] at hdisp
          repeat split at hdisp
          all_goals simp [ReadStep.isDispatch] at hdisp
        · -- the frame completed on its first block:
          -- aligned_data_len ≤ (current - msg_header) - MSG_HEADER_LENGTH
          have hm' := not_lt.mp hm
          have hd' := not_lt.mp hdone
          omega

/-- Witness for C8 at a concrete input: a `func_id < 0` frame whose
reassembly is past the first block and whose body is incomplete with the
buffer exhausted (current = buf_size = 1024, 1032 of 2048 aligned bytes
in): the step fails with EINVAL. -/
theorem read_step_negative_func_single_buffer_witness :
    read_step ⟨32, 128, 16, 262144, 4096, 1024⟩
        ⟨1024, 1024, 0, ⟨-1, 2048, 2048⟩, [8], 8⟩ = ReadStep.fail EINVAL :=
  (read_step_negative_func_single_buffer ⟨32, 128, 16, 262144, 4096, 1024⟩
      ⟨1024, 1024, 0, ⟨-1, 2048, 2048⟩, [8], 8⟩
      (by decide) (by decide) (by decide)).1
    (by decide) (by decide) (by decide) (by decide) (by decide)

/-! ## deal_write_event (`nio.cc:668-1023`)

The function is split into its phases: `fetch_msgs` (the iovec-assembly
loop, lines 704-841), the `writev` outcome handling (851-891), the fast
path / partial accounting walk (893-954) and completion (955-1022).  The
`writev` result is injected as a `WritevRes` parameter.  `iovec` entries
carry their byte length together with the bookkeeping of the C
`msg_indexes` array (priority, message index, buffer kind). -/

/-- `msg_indexes[].buff_type` (`BUFF_TYPE_HEADER/DATA/PADDING`). -/
inductive BuffType
  | hdr
  | data
  | pad
deriving DecidableEq, Repr

/-- One `write_vec` slot plus its `msg_indexes` record. -/
structure VecEnt where
  len : Nat
  priority : Nat
  index : Nat
  buff : BuffType
deriving DecidableEq, Repr

/-- Total byte length of a slot list. -/
def entsLen (l : List VecEnt) : Nat := (l.map VecEnt.len).sum

/-- The `consume` helper (`nio.cc:119-130`): drop `l` acknowledged bytes
from the head of a block chain. -/
def consume_blocks : List Nat → Nat → List Nat
  | [], _ => []
  | r :: rest, l => if l < r then (r - l) :: rest else consume_blocks rest (l - r)

/-- The iovec slots one message contributes (inner loop body,
`nio.cc:731-803`): the unsent header prefix, then the payload — for
object messages the blocks with `read_avail() > 0` up to
`WRITEV_ARRAY_SIZE - 1 - vec_count` slots (`get_iovec`, `nio.cc:102-117`),
for inline messages one slot — and the alignment padding once the payload
is fully covered.  Returns the slots and the `last_msg_complete` flag. -/
def msg_entries_raw (c : NioConsts) (m : OutMessage) (vec_count : Nat) :
    List (Nat × BuffType) × Bool :=
  let hdrEnts : List (Nat × BuffType) :=
    if m.bytes_sent < c.MSG_HEADER_LENGTH then
      [(c.MSG_HEADER_LENGTH - m.bytes_sent, BuffType.hdr)]
    else []
  let remain_len : Nat :=
    if m.bytes_sent < c.MSG_HEADER_LENGTH then m.header.aligned_data_len
    else (m.header.aligned_data_len + c.MSG_HEADER_LENGTH) - m.bytes_sent
  if 0 < remain_len then
    let pad_len : Nat := m.header.aligned_data_len - m.header.data_len
    let remain_data_len : Int := (remain_len : Int) - (pad_len : Int)
    let dc : List (Nat × BuffType) × Bool :=
      if 0 < remain_data_len then
        match m.data_type with
        | .object =>
          let segs := (m.blocks.filter (fun a => decide (0 < a))).take
            (c.WRITEV_ARRAY_SIZE - 1 - (vec_count + hdrEnts.length))
          (segs.map (fun a => (a, BuffType.data)),
            decide ((segs.sum : Int) = remain_data_len))
        | .inline => ([(remain_data_len.toNat, BuffType.data)], true)
      else ([], true)
    let padEnts : List (Nat × BuffType) :=
      if 0 < pad_len ∧ dc.2 = true then
        [(if 0 < remain_data_len then pad_len else remain_len, BuffType.pad)]
      else []
    (hdrEnts ++ dc.1 ++ padEnts, dc.2)
  else
    (hdrEnts, true)

def msg_entries (c : NioConsts) (m : OutMessage) (pri idx vec_count : Nat) :
    List VecEnt × Bool :=
  ((msg_entries_raw c m vec_count).1.map (fun x => (⟨x.1, pri, idx, x.2⟩ : VecEnt)),
    (msg_entries_raw c m vec_count).2)

/-- The running state of the fetch loop: the iovec built so far, the
per-priority `send_msgs` arrays (`msgs[p].send_msgs`, queue order), and
the loop's counters and flags. -/
structure FetchState where
  vec : List VecEnt
  sm : Queues OutMessage
  total_bytes : Nat
  total_msg_count : Nat
  last_msg_complete : Bool
  fetch_done : Bool
deriving DecidableEq, Repr

/-- One priority's visit in the fetch loop (`nio.cc:730-828`): walk the
given message list appending each message's slots, recording the message
in `send_msgs`, and stop with `fetch_done` when the batch limits fire
(`total_msg_count == WRITEV_ITEM_ONCE`,
`vec_count >= WRITEV_ARRAY_SIZE - 2`, or
`total_bytes >= WRITE_MAX_COMBINE_BYTES`); when `only_head` (the `i == 0`
iteration) stop after the head message either way. -/
def fetch_walk (c : NioConsts) (pri : Nat) (only_head : Bool) :
    List OutMessage → FetchState → FetchState
  | [], st => st
  | m :: rest, st =>
    let idx := (st.sm.get pri).length
    let r := msg_entries c m pri idx st.vec.length
    let st' : FetchState :=
      { vec := st.vec ++ r.1
        sm := st.sm.set pri (st.sm.get pri ++ [m])
        total_bytes := st.total_bytes + entsLen r.1
        total_msg_count := st.total_msg_count + 1
        last_msg_complete := r.2
        fetch_done := st.fetch_done }
    if st'.total_msg_count = c.WRITEV_ITEM_ONCE ∨
        c.WRITEV_ARRAY_SIZE - 2 ≤ st'.vec.length ∨
        c.WRITE_MAX_COMBINE_BYTES ≤ st'.total_bytes then
      { st' with fetch_done := true }
    else if only_head then st'
    else fetch_walk c pri only_head rest st'

/-- The whole fetch loop (`nio.cc:709-841`).  With `queue_index = 0` the
loop runs three iterations over priorities 0, 1, 2.  With
`queue_index > 0` it first takes only the head of priority `queue_index`
(the message whose transmission is in progress), then walks priorities
0, 1, 2 in full — skipping the already-fetched head when it reaches
priority `queue_index` again (`nio.cc:723-729`). -/
def fetch_msgs (c : NioConsts) (s : SockContext) : FetchState :=
  let init : FetchState := ⟨[], ⟨[], [], []⟩, 0, 0, false, false⟩
  if s.queue_index = 0 then
    let st1 := fetch_walk c 0 false (s.send_queues.get 0) init
    if st1.fetch_done then st1 else
    let st2 := fetch_walk c 1 false (s.send_queues.get 1) st1
    if st2.fetch_done then st2 else
    fetch_walk c 2 false (s.send_queues.get 2) st2
  else
    let st0 := fetch_walk c s.queue_index true (s.send_queues.get s.queue_index) init
    if st0.fetch_done then st0 else
    let l0 := if s.queue_index = 0 then (s.send_queues.get 0).tail
      else s.send_queues.get 0
    let st1 := fetch_walk c 0 false l0 st0
    if st1.fetch_done then st1 else
    let l1 := if s.queue_index = 1 then (s.send_queues.get 1).tail
      else s.send_queues.get 1
    let st2 := fetch_walk c 1 false l1 st1
    if st2.fetch_done then st2 else
    let l2 := if s.queue_index = 2 then (s.send_queues.get 2).tail
      else s.send_queues.get 2
    fetch_walk c 2 false l2 st2

/-- The `writev` outcome, injected: `wrote n` for a return of `n ≥ 0`
(`wrote 0` is the connection-closed case), the errno classes otherwise. -/
inductive WritevRes
  | wrote (n : Nat)
  | wouldBlock
  | intr
  | err (e : Int)
deriving DecidableEq, Repr

/-- Message lookup in the per-priority `send_msgs` arrays. -/
def getMsg (qs : Queues OutMessage) (p i : Nat) : OutMessage :=
  (qs.get p).getD i dfltOutMessage

def setMsg (qs : Queues OutMessage) (p i : Nat) (v : OutMessage) :
    Queues OutMessage :=
  qs.set p ((qs.get p).set i v)

/-- Crediting `add` acknowledged bytes of one iovec slot to its message
(`nio.cc:919-924` and `nio.cc:933-938`): object payload slots consume the
block chain, and `bytes_sent` advances. -/
def credit_msg (m : OutMessage) (e : VecEnt) (add : Nat) : OutMessage :=
  let m1 :=
    if m.data_type = .object ∧ e.buff = .data then
      { m with blocks := consume_blocks m.blocks add }
    else m
  { m1 with bytes_sent := m1.bytes_sent + add }

/-- The running state of the partial-accounting walk: the (mutated)
`send_msgs` arrays, the per-priority `done_msgs` (kept as indices into
`send_msgs`, C keeps the node pointers), and `total_done_count`. -/
structure WalkState where
  sm : Queues OutMessage
  done : Queues Nat
  total_done : Nat
deriving DecidableEq, Repr

/-- The accounting walk (`nio.cc:913-942`): consume `remain` bytes over
the iovec slots in order; a fully covered slot credits its whole length
to its message (recording the message as done when `bytes_sent` reaches
`MSG_HEADER_LENGTH + aligned_data_len`); the first slot that overdraws
gets the residual and stops the walk. -/
def apply_walk (c : NioConsts) :
    List VecEnt → Int → WalkState → WalkState
  | [], _, w => w
  | e :: rest, remain, w =>
    let r := remain - (e.len : Int)
    let m := getMsg w.sm e.priority e.index
    if 0 ≤ r then
      let m' := credit_msg m e e.len
      let w1 : WalkState := { w with sm := setMsg w.sm e.priority e.index m' }
      let w2 : WalkState :=
        if c.MSG_HEADER_LENGTH + m'.header.aligned_data_len ≤ m'.bytes_sent then
          { w1 with
            done := w1.done.set e.priority (w1.done.get e.priority ++ [e.index])
            total_done := w1.total_done + 1 }
        else w1
      apply_walk c rest r w2
    else
      let add := (remain : Int).toNat
      let m' := credit_msg m e add
      { w with sm := setMsg w.sm e.priority e.index m' }

/-- `queue_index` after a partial write (`nio.cc:944-949`): the priority
of the first slot the write did not fully cover, or of the last slot when
every slot was covered. -/
def break_priority : List VecEnt → Int → Nat → Nat
  | [], _, lastp => lastp
  | e :: rest, remain, _ =>
    let r := remain - (e.len : Int)
    if 0 ≤ r then break_priority rest r e.priority else e.priority

/-- The full result of one `deal_write_event` call: the return code, the
updated socket context, whether `writev` was reached, and the messages
passed to `release_out_message` (in release order, with the field values
they hold at release time). -/
structure WriteEventResult where
  res : Int
  ctx : SockContext
  called_writev : Bool
  released : List OutMessage
deriving DecidableEq, Repr

/-- `deal_write_event` (`nio.cc:668-1023`).  Assembly with no slots
returns EAGAIN before touching `writev` or any state (`nio.cc:851-853`).
Otherwise `send_retry_count`/`call_writev_count` are bumped and `writev`
issued: 0 → ECONNRESET; EAGAIN/EWOULDBLOCK → EAGAIN; EINTR → 0 (retry
immediately); other errno → that errno (EIO when errno reads 0).  For a
positive write: the result is 0 iff everything assembled was written AND
a batch limit had fired (`nio.cc:886-891`); if additionally the last
message was complete, all fetched messages are done without updating
their `bytes_sent` (`nio.cc:893-901`), else the accounting walk runs and
`queue_index` records where to resume.  Done messages are unlinked (the
head moves past the last done message) and released.

In the Lean model the C code's in-place mutation of the shared message
nodes is reflected by rebuilding each queue as the walked (fetched)
prefix followed by the untouched remainder; the fetch loop visits exactly
a prefix of each FIFO (the `queue_index` head plus, on the second visit,
its successors), so this matches the pointer semantics. -/
def deal_write_event (c : NioConsts) (s : SockContext) (w : WritevRes) :
    WriteEventResult :=
  let fs := fetch_msgs c s
  if fs.vec.length = 0 then ⟨EAGAIN, s, false, []⟩
  else
    let s1 := { s with stats := { s.stats with
        send_retry_count := s.stats.send_retry_count + fs.total_msg_count,
        call_writev_count := s.stats.call_writev_count + 1 } }
    match w with
    | .wouldBlock => ⟨EAGAIN, s1, true, []⟩
    | .intr => ⟨0, s1, true, []⟩
    | .err e => ⟨if e ≠ 0 then e else EIO_errno, s1, true, []⟩
    | .wrote n =>
      if n = 0 then ⟨ECONNRESET, s1, true, []⟩
      else
        let s2 := { s1 with stats := { s1.stats with
            send_bytes := s1.stats.send_bytes + n } }
        let r : Int := if n = fs.total_bytes ∧ fs.fetch_done = true then 0 else EAGAIN
        let rest := fun p => (s.send_queues.get p).drop ((fs.sm.get p).length)
        if n = fs.total_bytes ∧ fs.last_msg_complete = true then
          -- all done (`nio.cc:893-901`): every fetched message is released
          -- as is, each queue's head moves past its fetched prefix
          ⟨r,
            { s2 with
              send_queues := ⟨rest 0, rest 1, rest 2⟩
              queue_index := 0
              stats := { s2.stats with
                send_msg_count := s2.stats.send_msg_count + fs.total_msg_count } },
            true,
            fs.sm.get 0 ++ fs.sm.get 1 ++ fs.sm.get 2⟩
        else
          let wk := apply_walk c fs.vec (n : Int) ⟨fs.sm, ⟨[], [], []⟩, 0⟩
          let qi := break_priority fs.vec (n : Int) 0
          if wk.total_done = 0 then
            -- nothing completed: keep the (mutated) fetched prefix queued
            ⟨r,
              { s2 with
                send_queues := ⟨wk.sm.get 0 ++ rest 0, wk.sm.get 1 ++ rest 1,
                  wk.sm.get 2 ++ rest 2⟩
                queue_index := qi },
              true, []⟩
          else
            -- advance each head past the last done message and release
            let cut := fun p =>
              if (wk.done.get p).isEmpty then 0 else (wk.done.get p).getLastD 0 + 1
            ⟨r,
              { s2 with
                send_queues := ⟨(wk.sm.get 0).drop (cut 0) ++ rest 0,
                  (wk.sm.get 1).drop (cut 1) ++ rest 1,
                  (wk.sm.get 2).drop (cut 2) ++ rest 2⟩
                queue_index := qi
                stats := { s2.stats with
                  send_msg_count := s2.stats.send_msg_count + wk.total_done } },
              true,
              (wk.done.get 0).map (getMsg wk.sm 0) ++
                (wk.done.get 1).map (getMsg wk.sm 1) ++
                (wk.done.get 2).map (getMsg wk.sm 2)⟩

/-- Helper: the `Queues.get` of the empty triple is empty at every
priority. -/
theorem Queues.get_nil {α : Type} (p : Nat) : (Queues.mk ([] : List α) [] []).get p = [] := by
  unfold Queues.get
  split
  · rfl
  · split <;> rfl

/-- Helper: the return code of `deal_write_event` as a function of the
fetch outcome and the `writev` result alone. -/
theorem deal_write_event_res (c : NioConsts) (s : SockContext) (w : WritevRes) :
    (deal_write_event c s w).res =
      if (fetch_msgs c s).vec.length = 0 then EAGAIN
      else
        match w with
        | .wouldBlock => EAGAIN
        | .intr => 0
        | .err e => if e ≠ 0 then e else EIO_errno
        | .wrote n =>
          if n = 0 then ECONNRESET
          else if n = (fetch_msgs c s).total_bytes ∧ (fetch_msgs c s).fetch_done = true
            then 0 else EAGAIN := by
  by_cases hv : (fetch_msgs c s).vec.length = 0
  · simp only [deal_write_event, hv, if_pos trivial, if_true]
  · cases w with
    | wouldBlock => simp only [deal_write_event, if_neg hv]
    | intr => simp only [deal_write_event, if_neg hv]
    | err e => simp only [deal_write_event, if_neg hv]
    | wrote n =>
      simp only [deal_write_event, if_neg hv]
      by_cases hn : n = 0
      · subst hn
        rw [if_pos rfl, if_pos rfl]
      · simp only [if_neg hn]
        split <;> [rfl; (split <;> rfl)]

/-- C2 counterexample: the claim says that for every `writev` outcome
other than `write_bytes == total_bytes && fetch_done`, the return value
is not 0.  When `writev` fails with EINTR the code returns 0 to request
an immediate retry (`nio.cc:868-874`).  Concrete run: one 8-byte inline
message queued, `writev` interrupted → `deal_write_event` returns 0
although nothing was written. -/
theorem deal_write_event_eintr_returns_zero :
    (deal_write_event ⟨32, 8, 4, 1024, 4096, 2097152⟩
      ⟨⟨[⟨⟨5, 8, 8⟩, 0, .inline, []⟩], [], []⟩, 0, 0, 4, ⟨0, 0, 0, 0, 0, 0, 0, 0⟩⟩
      .intr).res = 0 ∧
    ∀ n : Nat, WritevRes.intr ≠ WritevRes.wrote n := by
  refine ⟨by decide, fun n h => by cases h⟩

/-- C2 (amended): `deal_write_event` returns 0 ("more to send /
retry immediately") exactly when slots were assembled and either (a)
`writev` was interrupted (EINTR — retry immediately, `nio.cc:868-874`),
or (b) `writev` wrote every assembled byte and a batch limit had stopped
the fetch loop (`fetch_done`, more data may be waiting,
`nio.cc:886-891`).  In every other case the result is EAGAIN or an error
code, never 0. -/
theorem deal_write_event_zero_iff (c : NioConsts) (s : SockContext) (w : WritevRes) :
    (deal_write_event c s w).res = 0 ↔
      (fetch_msgs c s).vec.length ≠ 0 ∧
        (w = .intr ∨
          (w = .wrote (fetch_msgs c s).total_bytes ∧
            0 < (fetch_msgs c s).total_bytes ∧
            (fetch_msgs c s).fetch_done = true)) := by
  rw [deal_write_event_res]
  by_cases hv : (fetch_msgs c s).vec.length = 0
  · simp only [hv, if_pos trivial, if_true]
    constructor
    · intro h
      exact absurd h (by decide)
    · rintro ⟨h, -⟩
      exact absurd rfl h
  · simp only [if_neg hv]
    cases w with
    | wouldBlock =>
      simp only [EAGAIN]
      constructor
      · intro h; exact absurd h (by decide)
      · rintro ⟨-, h | ⟨h, -⟩⟩ <;> cases h
    | intr => simp [hv]
    | err e =>
      constructor
      · intro h
        by_cases he : e = 0
        · simp only [he, ne_eq, not_true_eq_false, if_false, EIO_errno] at h
          exact absurd h (by decide)
        · simp only [ne_eq, he, not_false_eq_true, if_true] at h
      · rintro ⟨-, h | ⟨h, -⟩⟩ <;> cases h
    | wrote n =>
      by_cases hn : n = 0
      · subst hn
        simp only [if_pos trivial, if_true, ECONNRESET]
        constructor
        · intro h; exact absurd h (by decide)
        · rintro ⟨-, h | ⟨h, hpos, -⟩⟩
          · cases h
          · rw [WritevRes.wrote.injEq] at h
            omega
      · simp only [if_neg hn]
        constructor
        · intro h
          split at h
          · next hc =>
            exact ⟨hv, Or.inr ⟨by rw [hc.1], by omega, hc.2⟩⟩
          · exact absurd h (by decide)
        · rintro ⟨-, h | ⟨h, hpos, hfd⟩⟩
          · cases h
          · rw [WritevRes.wrote.injEq] at h
            rw [if_pos ⟨h, hfd⟩]

/-- C10 (implicit): when all three priority queues are empty, the fetch
loop assembles zero iovec slots, and `deal_write_event` returns EAGAIN
without calling `writev` and without touching any state — queues,
`queue_index`, every message's `bytes_sent` and all counters are exactly
as before (`nio.cc:704-853`). -/
theorem deal_write_event_empty_queues (c : NioConsts) (s : SockContext)
    (w : WritevRes) (h : s.send_queues = ⟨[], [], []⟩) :
    deal_write_event c s w = ⟨EAGAIN, s, false, []⟩ := by
  have hget : ∀ p, s.send_queues.get p = [] := by
    intro p
    rw [h]
    exact Queues.get_nil p
  have hfm : fetch_msgs c s = ⟨[], ⟨[], [], []⟩, 0, 0, false, false⟩ := by
    unfold fetch_msgs
    by_cases hq : s.queue_index = 0 <;>
      simp [hq, hget, fetch_walk]
  simp only [deal_write_event, hfm]
  rfl

/-- Witness for C10 at a concrete input. -/
theorem deal_write_event_empty_queues_witness :
    deal_write_event ⟨32, 8, 4, 1024, 4096, 2097152⟩
        ⟨⟨[], [], []⟩, 2, 7, 9, ⟨1, 2, 3, 4, 5, 6, 7, 8⟩⟩ .wouldBlock =
      ⟨EAGAIN, ⟨⟨[], [], []⟩, 2, 7, 9, ⟨1, 2, 3, 4, 5, 6, 7, 8⟩⟩, false, []⟩ :=
  deal_write_event_empty_queues ⟨32, 8, 4, 1024, 4096, 2097152⟩
    ⟨⟨[], [], []⟩, 2, 7, 9, ⟨1, 2, 3, 4, 5, 6, 7, 8⟩⟩ .wouldBlock rfl

/-! ## The accounting invariant (C4)

The well-formedness every queued message satisfies by construction:
`bytes_sent` never exceeds `MSG_HEADER_LENGTH + aligned_data_len`, the
true payload fits the aligned length, and for object messages the block
chain holds exactly the not-yet-acknowledged payload bytes (the sender
consumes blocks as `writev` acknowledges them, `nio.cc:119-130`). -/

def OutMessageWf (c : NioConsts) (m : OutMessage) : Prop :=
  m.header.data_len ≤ m.header.aligned_data_len ∧
  m.bytes_sent ≤ c.MSG_HEADER_LENGTH + m.header.aligned_data_len ∧
  (m.data_type = .object →
    m.blocks.sum = m.header.data_len - (m.bytes_sent - c.MSG_HEADER_LENGTH))

instance (c : NioConsts) (m : OutMessage) : Decidable (OutMessageWf c m) := by
  unfold OutMessageWf
  infer_instance

/-- Total slot bytes charged against the message at (priority, index). -/
def entSum (v : List VecEnt) (p i : Nat) : Nat :=
  entsLen (v.filter (fun e => decide (e.priority = p ∧ e.index = i)))

theorem entsLen_append (a b : List VecEnt) :
    entsLen (a ++ b) = entsLen a + entsLen b := by
  simp [entsLen]

theorem entSum_append (a b : List VecEnt) (p i : Nat) :
    entSum (a ++ b) p i = entSum a p i + entSum b p i := by
  simp [entSum, List.filter_append, entsLen_append]

theorem entSum_cons (e : VecEnt) (v : List VecEnt) (p i : Nat) :
    entSum (e :: v) p i =
      (if e.priority = p ∧ e.index = i then e.len else 0) + entSum v p i := by
  simp only [entSum, List.filter_cons]
  split
  · next h =>
    rw [if_pos (of_decide_eq_true h)]
    simp [entsLen]
  · next h =>
    rw [if_neg (fun hc => h (decide_eq_true hc))]
    simp

theorem entSum_all_tagged (v : List VecEnt) (pri idx : Nat)
    (h : ∀ e ∈ v, e.priority = pri ∧ e.index = idx) (p i : Nat)
    (hne : ¬ (pri = p ∧ idx = i)) : entSum v p i = 0 := by
  induction v with
  | nil => rfl
  | cons e rest ih =>
    rw [entSum_cons]
    have he := h e (by simp)
    rw [if_neg (by rw [he.1, he.2]; exact hne), zero_add]
    exact ih (fun x hx => h x (by simp [hx]))

theorem entSum_all_tagged_self (v : List VecEnt) (pri idx : Nat)
    (h : ∀ e ∈ v, e.priority = pri ∧ e.index = idx) : entSum v pri idx = entsLen v := by
  induction v with
  | nil => rfl
  | cons e rest ih =>
    have he := h e (by simp)
    rw [entSum_cons, if_pos ⟨he.1, he.2⟩, entsLen]
    rw [ih (fun x hx => h x (by simp [hx]))]
    simp [entsLen]

theorem entSum_head_le (e : VecEnt) (v : List VecEnt) :
    e.len ≤ entSum (e :: v) e.priority e.index := by
  rw [entSum_cons, if_pos ⟨rfl, rfl⟩]
  omega

/-- `Queues.get` after `Queues.set` for in-range priorities. -/
theorem Queues.get_set {α : Type} (qs : Queues α) (p p' : Nat) (l : List α)
    (hp : p < 3) (hp' : p' < 3) :
    (qs.set p l).get p' = if p = p' then l else qs.get p' := by
  unfold Queues.get Queues.set
  interval_cases p <;> interval_cases p' <;> simp

theorem nat_sublist_sum_le {l1 l2 : List Nat} (h : l1.Sublist l2) :
    l1.sum ≤ l2.sum := by
  induction h with
  | slnil => exact le_refl 0
  | cons a h ih => simp only [List.sum_cons]; omega
  | cons₂ a h ih => simp only [List.sum_cons]; omega

/-- Every slot a message contributes is tagged with that message's
priority and index. -/
theorem msg_entries_tag (c : NioConsts) (m : OutMessage) (pri idx vc : Nat) :
    ∀ e ∈ (msg_entries c m pri idx vc).1, e.priority = pri ∧ e.index = idx := by
  intro e he
  unfold msg_entries at he
  rcases List.mem_map.mp he with ⟨x, -, rfl⟩
  exact ⟨rfl, rfl⟩

theorem map_fst_tag (l : List Nat) (b : BuffType) :
    ((l.map (fun a => (a, b))).map Prod.fst) = l := by
  induction l <;> simp_all

theorem map_fst_tag_comp (l : List Nat) (b : BuffType) :
    (l.map (Prod.fst ∘ fun a => (a, b))) = l := by
  induction l <;> simp_all

theorem entsLen_msg_entries (c : NioConsts) (m : OutMessage) (pri idx vc : Nat) :
    entsLen (msg_entries c m pri idx vc).1 =
      ((msg_entries_raw c m vc).1.map Prod.fst).sum := by
  unfold msg_entries entsLen
  rw [List.map_map]
  rfl

theorem msg_entries_raw_sum_le (c : NioConsts) (m : OutMessage) (vc : Nat)
    (hwf : OutMessageWf c m) :
    ((msg_entries_raw c m vc).1.map Prod.fst).sum ≤
      (c.MSG_HEADER_LENGTH + m.header.aligned_data_len) - m.bytes_sent := by
  obtain ⟨hda, hbs, hblocks⟩ := hwf
  rcases m with ⟨⟨f, D, A⟩, s, dt, bl⟩
  simp only at hda hbs hblocks
  unfold msg_entries_raw
  dsimp only
  by_cases hs : s < c.MSG_HEADER_LENGTH <;>
      simp only [hs, if_true, if_false, ite_true, ite_false, List.length_cons,
        List.length_nil, List.length_singleton, Nat.zero_add, Nat.add_zero]
  case pos =>
    by_cases hA : 0 < A
    case neg =>
      rw [if_neg hA]
      simp only [List.map_cons, List.map_nil, List.sum_cons, List.sum_nil]
      omega
    rw [if_pos hA]
    by_cases h2 : (0 : Int) < (A : Int) - ((A - D : Nat) : Int)
    case neg =>
      by_cases hp : 0 < A - D <;>
        simp [h2, hp] <;> omega
    simp only [h2, ite_true]
    cases dt with
    | object =>
      dsimp only
      have hbl : bl.sum = D - (s - c.MSG_HEADER_LENGTH) := hblocks rfl
      have hsub : ((bl.filter (fun a => decide (0 < a))).take
            (c.WRITEV_ARRAY_SIZE - 1 - (vc + 1))).sum ≤ bl.sum :=
        nat_sublist_sum_le ((List.take_sublist _ _).trans (List.filter_sublist _))
      by_cases hc : ((((bl.filter (fun a => decide (0 < a))).take
            (c.WRITEV_ARRAY_SIZE - 1 - (vc + 1))).sum : Int) =
            (A : Int) - ((A - D : Nat) : Int))
      · by_cases hp : 0 < A - D <;>
          simp [hc, hp, map_fst_tag, map_fst_tag_comp] <;> omega
      · rw [if_neg (fun h => hc (of_decide_eq_true h.2))]
        simp only [List.map_append, List.sum_append, map_fst_tag, List.map_cons,
          List.map_nil, List.sum_cons, List.sum_nil, List.append_nil]
        omega
    | inline =>
      dsimp only
      by_cases hp : 0 < A - D <;>
        simp [hp] <;> omega
  case neg =>
    by_cases hR : 0 < (A + c.MSG_HEADER_LENGTH) - s
    case neg =>
      rw [if_neg hR]
      simp only [List.map_nil, List.sum_nil]
      omega
    rw [if_pos hR]
    by_cases h2 : (0 : Int) < (((A + c.MSG_HEADER_LENGTH) - s : Nat) : Int) -
        ((A - D : Nat) : Int)
    case neg =>
      by_cases hp : 0 < A - D <;>
        simp [h2, hp] <;> omega
    simp only [h2, ite_true]
    cases dt with
    | object =>
      dsimp only
      have hbl : bl.sum = D - (s - c.MSG_HEADER_LENGTH) := hblocks rfl
      have hsub : ((bl.filter (fun a => decide (0 < a))).take
            (c.WRITEV_ARRAY_SIZE - 1 - vc)).sum ≤ bl.sum :=
        nat_sublist_sum_le ((List.take_sublist _ _).trans (List.filter_sublist _))
      by_cases hc : ((((bl.filter (fun a => decide (0 < a))).take
            (c.WRITEV_ARRAY_SIZE - 1 - vc)).sum : Int) =
            (((A + c.MSG_HEADER_LENGTH) - s : Nat) : Int) - ((A - D : Nat) : Int))
      · by_cases hp : 0 < A - D <;>
          simp [hc, hp, map_fst_tag, map_fst_tag_comp] <;> omega
      · rw [if_neg (fun h => hc (of_decide_eq_true h.2))]
        simp only [List.map_append, List.sum_append, map_fst_tag, List.map_cons,
          List.map_nil, List.sum_cons, List.sum_nil, List.append_nil,
          List.nil_append]
        omega
    | inline =>
      dsimp only
      by_cases hp : 0 < A - D <;>
        simp [hp] <;> omega

theorem getD_append_lt {α : Type} (l1 l2 : List α) (i : Nat) (d : α)
    (h : i < l1.length) : (l1 ++ l2).getD i d = l1.getD i d := by
  simp [List.getD, List.getElem?_append_left h]

theorem getD_append_len {α : Type} (l1 : List α) (m d : α) :
    (l1 ++ [m]).getD l1.length d = m := by
  simp [List.getD, List.getElem?_append_right (le_refl _)]

theorem entSum_eq_zero (v : List VecEnt) (p i : Nat)
    (h : ∀ e ∈ v, ¬ (e.priority = p ∧ e.index = i)) : entSum v p i = 0 := by
  induction v with
  | nil => rfl
  | cons e rest ih =>
    rw [entSum_cons, if_neg (h e (by simp)), Nat.zero_add]
    exact ih (fun x hx => h x (by simp [hx]))

/-- The invariant the fetch loop maintains: every assembled slot points at
a fetched message (priority 0..2, index within the `send_msgs` array of
its priority), and for every fetched message, `bytes_sent` plus the total
bytes of its slots stays within `MSG_HEADER_LENGTH + aligned_data_len`. -/
def FetchInv (c : NioConsts) (vec : List VecEnt) (sm : Queues OutMessage) : Prop :=
  (∀ e ∈ vec, e.priority < 3 ∧ e.index < (sm.get e.priority).length) ∧
  (∀ p i, p < 3 → i < (sm.get p).length →
    (getMsg sm p i).bytes_sent + entSum vec p i ≤
      c.MSG_HEADER_LENGTH + (getMsg sm p i).header.aligned_data_len)

/-- One fetch step (appending one message's slots) preserves the
invariant. -/
theorem fetch_step_inv (c : NioConsts) (pri : Nat) (hpri : pri < 3)
    (m : OutMessage) (hm : OutMessageWf c m)
    (vec : List VecEnt) (sm : Queues OutMessage)
    (hinv : FetchInv c vec sm) :
    FetchInv c (vec ++ (msg_entries c m pri (sm.get pri).length vec.length).1)
      (sm.set pri (sm.get pri ++ [m])) := by
  obtain ⟨hent, hbud⟩ := hinv
  have htag := msg_entries_tag c m pri (sm.get pri).length vec.length
  constructor
  · intro e he
    rcases List.mem_append.mp he with he | he
    · obtain ⟨hp3, hi⟩ := hent e he
      refine ⟨hp3, ?_⟩
      rw [Queues.get_set _ _ _ _ hpri hp3]
      split
      · next heq =>
        rw [← heq] at hi
        simp only [List.length_append, List.length_singleton]
        omega
      · exact hi
    · obtain ⟨hp, hi⟩ := htag e he
      rw [hp, hi]
      refine ⟨hpri, ?_⟩
      rw [Queues.get_set _ _ _ _ hpri hpri, if_pos rfl]
      simp
  · intro p i hp3 hi
    rw [Queues.get_set _ _ _ _ hpri hp3] at hi
    simp only [getMsg, Queues.get_set _ _ _ _ hpri hp3]
    rw [entSum_append]
    by_cases hpp : pri = p
    · subst hpp
      rw [if_pos rfl] at hi ⊢
      simp only [List.length_append, List.length_singleton] at hi
      rcases Nat.lt_or_ge i (sm.get pri).length with hlt | hge
      · rw [getD_append_lt _ _ _ _ hlt]
        rw [entSum_eq_zero (msg_entries c m pri (sm.get pri).length vec.length).1 pri i
          (fun e he => fun hc => by
            obtain ⟨-, hidx⟩ := htag e he
            omega)]
        have := hbud pri i hpri hlt
        simp only [getMsg] at this
        omega
      · have hieq : i = (sm.get pri).length := by omega
        subst hieq
        rw [getD_append_len]
        rw [entSum_eq_zero vec pri _
          (fun e he hc => by
            obtain ⟨-, hidx⟩ := hent e he
            rw [hc.1] at hidx
            omega),
          entSum_all_tagged_self _ _ _ htag]
        rw [entsLen_msg_entries]
        have h1 := msg_entries_raw_sum_le c m vec.length hm
        have h2 := hm.2.1
        omega
    · rw [if_neg hpp] at hi ⊢
      rw [entSum_eq_zero (msg_entries c m pri (sm.get pri).length vec.length).1 p i
        (fun e he hc => hpp ((htag e he).1.symm.trans hc.1))]
      have := hbud p i hp3 hi
      simp only [getMsg] at this
      omega

/-- The fetch loop's per-priority walk preserves the invariant. -/
theorem fetch_walk_inv (c : NioConsts) (pri : Nat) (oh : Bool) (hpri : pri < 3) :
    ∀ (l : List OutMessage) (st : FetchState),
      (∀ m ∈ l, OutMessageWf c m) →
      FetchInv c st.vec st.sm →
      FetchInv c (fetch_walk c pri oh l st).vec (fetch_walk c pri oh l st).sm := by
  intro l
  induction l with
  | nil =>
    intro st _ hinv
    simpa [fetch_walk] using hinv
  | cons m rest ih =>
    intro st hwf hinv
    rw [fetch_walk]
    have hstep := fetch_step_inv c pri hpri m (hwf m (by simp)) st.vec st.sm hinv
    split
    · exact hstep
    · split
      · exact hstep
      · exact ih _ (fun x hx => hwf x (by simp [hx])) hstep

/-- The whole fetch loop establishes the invariant from well-formed
queues. -/
theorem fetch_msgs_inv (c : NioConsts) (s : SockContext)
    (hq : s.queue_index < 3)
    (hwf0 : ∀ m ∈ s.send_queues.q0, OutMessageWf c m)
    (hwf1 : ∀ m ∈ s.send_queues.q1, OutMessageWf c m)
    (hwf2 : ∀ m ∈ s.send_queues.q2, OutMessageWf c m) :
    FetchInv c (fetch_msgs c s).vec (fetch_msgs c s).sm := by
  have hget : ∀ p, ∀ m ∈ s.send_queues.get p, OutMessageWf c m := by
    intro p
    unfold Queues.get
    split
    · exact hwf0
    · split
      · exact hwf1
      · exact hwf2
  have hgett : ∀ p, ∀ m ∈ (s.send_queues.get p).tail, OutMessageWf c m :=
    fun p m hm => hget p m (List.mem_of_mem_tail hm)
  have hinit : FetchInv c (⟨[], ⟨[], [], []⟩, 0, 0, false, false⟩ : FetchState).vec
      (⟨[], ⟨[], [], []⟩, 0, 0, false, false⟩ : FetchState).sm := by
    constructor
    · intro e he
      cases he
    · intro p i hp3 hi
      rw [Queues.get_nil] at hi
      cases hi
  unfold fetch_msgs
  dsimp only
  split
  · next hqz =>
    have h1 := fetch_walk_inv c 0 false (by omega) _ _ (hget 0) hinit
    split
    · exact h1
    · have h2 := fetch_walk_inv c 1 false (by omega) _ _ (hget 1) h1
      split
      · exact h2
      · exact fetch_walk_inv c 2 false (by omega) _ _ (hget 2) h2
  · next hqz =>
    have hq12 : s.queue_index = 1 ∨ s.queue_index = 2 := by omega
    rcases hq12 with hq1 | hq2
    · simp only [hq1, Nat.one_ne_zero, if_false, if_true, Nat.succ_ne_self,
        show (1 : Nat) ≠ 0 from by omega, show ((1 : Nat) = 0) = False from by simp,
        show ((1 : Nat) = 1) = True from by simp,
        show ((1 : Nat) = 2) = False from by simp]
      have h0 := fetch_walk_inv c 1 true (by omega) _ _ (hget 1) hinit
      split
      · exact h0
      · have h1 := fetch_walk_inv c 0 false (by omega) _ _ (hget 0) h0
        split
        · exact h1
        · have h2 := fetch_walk_inv c 1 false (by omega) _ _ (hgett 1) h1
          split
          · exact h2
          · exact fetch_walk_inv c 2 false (by omega) _ _ (hget 2) h2
    · simp only [hq2,
        show ((2 : Nat) = 0) = False from by simp,
        show ((2 : Nat) = 1) = False from by simp,
        show ((2 : Nat) = 2) = True from by simp, if_false, if_true]
      have h0 := fetch_walk_inv c 2 true (by omega) _ _ (hget 2) hinit
      split
      · exact h0
      · have h1 := fetch_walk_inv c 0 false (by omega) _ _ (hget 0) h0
        split
        · exact h1
        · have h2 := fetch_walk_inv c 1 false (by omega) _ _ (hget 1) h1
          split
          · exact h2
          · exact fetch_walk_inv c 2 false (by omega) _ _ (hgett 2) h2

theorem credit_msg_header (m : OutMessage) (e : VecEnt) (a : Nat) :
    (credit_msg m e a).header = m.header := by
  unfold credit_msg
  split <;> rfl

theorem credit_msg_bytes (m : OutMessage) (e : VecEnt) (a : Nat) :
    (credit_msg m e a).bytes_sent = m.bytes_sent + a := by
  unfold credit_msg
  split <;> rfl

theorem setMsg_length (qs : Queues OutMessage) (p i : Nat) (v : OutMessage)
    (p' : Nat) (hp : p < 3) (hp' : p' < 3) :
    ((setMsg qs p i v).get p').length = (qs.get p').length := by
  unfold setMsg
  rw [Queues.get_set _ _ _ _ hp hp']
  split
  · next h => rw [← h]; simp
  · rfl

theorem getMsg_setMsg_self (qs : Queues OutMessage) (p i : Nat) (v : OutMessage)
    (hp : p < 3) (hi : i < (qs.get p).length) :
    getMsg (setMsg qs p i v) p i = v := by
  unfold getMsg setMsg
  rw [Queues.get_set _ _ _ _ hp hp, if_pos rfl]
  simp [List.getD, List.getElem?_set, hi]

theorem getMsg_setMsg_ne (qs : Queues OutMessage) (p i p' i' : Nat)
    (v : OutMessage) (hp : p < 3) (hp' : p' < 3) (h : ¬ (p = p' ∧ i = i')) :
    getMsg (setMsg qs p i v) p' i' = getMsg qs p' i' := by
  unfold getMsg setMsg
  rw [Queues.get_set _ _ _ _ hp hp']
  by_cases hpp : p = p'
  · rw [if_pos hpp]
    subst hpp
    have hii : i ≠ i' := fun he => h ⟨rfl, he⟩
    simp [List.getD, List.getElem?_set, hii]
  · rw [if_neg hpp]

/-- The accounting walk: every message's `bytes_sent` only grows, stays
within `MSG_HEADER_LENGTH + aligned_data_len`, headers are untouched, and
every index recorded done points at a message whose `bytes_sent` equals
exactly `MSG_HEADER_LENGTH + aligned_data_len`. -/
theorem apply_walk_spec (c : NioConsts) :
    ∀ (ents : List VecEnt) (remain : Int) (w : WalkState),
      0 ≤ remain →
      (∀ e ∈ ents, e.priority < 3 ∧ e.index < (w.sm.get e.priority).length) →
      (∀ p i, p < 3 → i < (w.sm.get p).length →
        (getMsg w.sm p i).bytes_sent + entSum ents p i ≤
          c.MSG_HEADER_LENGTH + (getMsg w.sm p i).header.aligned_data_len) →
      (∀ p, p < 3 → ∀ idx ∈ w.done.get p, idx < (w.sm.get p).length ∧
        (getMsg w.sm p idx).bytes_sent =
          c.MSG_HEADER_LENGTH + (getMsg w.sm p idx).header.aligned_data_len) →
      (∀ p, p < 3 →
        ((apply_walk c ents remain w).sm.get p).length = (w.sm.get p).length) ∧
      (∀ p i, p < 3 → i < (w.sm.get p).length →
        (getMsg (apply_walk c ents remain w).sm p i).header =
          (getMsg w.sm p i).header ∧
        (getMsg w.sm p i).bytes_sent ≤
          (getMsg (apply_walk c ents remain w).sm p i).bytes_sent ∧
        (getMsg (apply_walk c ents remain w).sm p i).bytes_sent ≤
          c.MSG_HEADER_LENGTH +
            (getMsg (apply_walk c ents remain w).sm p i).header.aligned_data_len) ∧
      (∀ p, p < 3 → ∀ idx ∈ (apply_walk c ents remain w).done.get p,
        idx < ((apply_walk c ents remain w).sm.get p).length ∧
        (getMsg (apply_walk c ents remain w).sm p idx).bytes_sent =
          c.MSG_HEADER_LENGTH +
            (getMsg (apply_walk c ents remain w).sm p idx).header.aligned_data_len) := by
  intro ents
  induction ents with
  | nil =>
    intro remain w _ _ hbud hdone
    rw [apply_walk]
    refine ⟨fun p hp => rfl, fun p i hp hi => ⟨rfl, le_refl _, ?_⟩, hdone⟩
    have hb := hbud p i hp hi
    have hz : entSum [] p i = 0 := rfl
    omega
  | cons e rest ih =>
    intro remain w hrem hents hbud hdone
    obtain ⟨hep, hei⟩ := hents e (by simp)
    rw [apply_walk]
    dsimp only
    by_cases hr : (0 : Int) ≤ remain - (e.len : Int)
    · rw [if_pos hr]
      have hlen2 : ∀ v : OutMessage, ∀ p', p' < 3 →
          ((setMsg w.sm e.priority e.index v).get p').length =
            (w.sm.get p').length :=
        fun v p' hp' => setMsg_length w.sm e.priority e.index v p' hep hp'
      have hget_self : ∀ v : OutMessage,
          getMsg (setMsg w.sm e.priority e.index v) e.priority e.index = v :=
        fun v => getMsg_setMsg_self w.sm e.priority e.index v hep hei
      have hget_ne : ∀ v : OutMessage, ∀ p i, p < 3 →
          ¬ (e.priority = p ∧ e.index = i) →
          getMsg (setMsg w.sm e.priority e.index v) p i = getMsg w.sm p i :=
        fun v p i hp hne => getMsg_setMsg_ne w.sm e.priority e.index p i v hep hp hne
      have hents2 : ∀ v : OutMessage, ∀ x ∈ rest, x.priority < 3 ∧
          x.index < ((setMsg w.sm e.priority e.index v).get x.priority).length := by
        intro v x hx
        obtain ⟨h1, h2⟩ := hents x (by simp [hx])
        exact ⟨h1, by rw [hlen2 v x.priority h1]; exact h2⟩
      have hbud2 : ∀ p i, p < 3 →
          i < ((setMsg w.sm e.priority e.index
              (credit_msg (getMsg w.sm e.priority e.index) e e.len)).get p).length →
          (getMsg (setMsg w.sm e.priority e.index
              (credit_msg (getMsg w.sm e.priority e.index) e e.len)) p i).bytes_sent +
            entSum rest p i ≤
          c.MSG_HEADER_LENGTH +
            (getMsg (setMsg w.sm e.priority e.index
              (credit_msg (getMsg w.sm e.priority e.index) e e.len)) p i).header.aligned_data_len := by
        intro p i hp hi
        rw [hlen2 _ p hp] at hi
        by_cases htag : e.priority = p ∧ e.index = i
        · obtain ⟨h1, h2⟩ := htag
          subst h1
          subst h2
          have hb := hbud e.priority e.index hep hei
          rw [entSum_cons, if_pos ⟨rfl, rfl⟩] at hb
          rw [hget_self, credit_msg_bytes, credit_msg_header]
          omega
        · rw [hget_ne _ p i hp htag]
          have hb := hbud p i hp hi
          rw [entSum_cons, if_neg htag] at hb
          omega
      have hfull_step : ∀ idx, e.index = idx →
          idx < (w.sm.get e.priority).length →
          (getMsg w.sm e.priority idx).bytes_sent =
            c.MSG_HEADER_LENGTH + (getMsg w.sm e.priority idx).header.aligned_data_len →
          (getMsg (setMsg w.sm e.priority e.index
              (credit_msg (getMsg w.sm e.priority e.index) e e.len)) e.priority idx).bytes_sent =
            c.MSG_HEADER_LENGTH +
              (getMsg (setMsg w.sm e.priority e.index
                (credit_msg (getMsg w.sm e.priority e.index) e e.len)) e.priority idx).header.aligned_data_len := by
        intro idx hidx hlt hfull
        subst hidx
        have hb := hbud e.priority e.index hep hei
        have hhead := entSum_head_le e rest
        rw [entSum_cons, if_pos ⟨rfl, rfl⟩] at hb
        have hz : e.len = 0 := by omega
        rw [hget_self, credit_msg_bytes, credit_msg_header, hz]
        omega
      split
      · next hcond =>
        have hdone2 : ∀ p, p < 3 →
            ∀ idx ∈ (w.done.set e.priority (w.done.get e.priority ++ [e.index])).get p,
            idx < ((setMsg w.sm e.priority e.index
                (credit_msg (getMsg w.sm e.priority e.index) e e.len)).get p).length ∧
            (getMsg (setMsg w.sm e.priority e.index
                (credit_msg (getMsg w.sm e.priority e.index) e e.len)) p idx).bytes_sent =
              c.MSG_HEADER_LENGTH +
                (getMsg (setMsg w.sm e.priority e.index
                  (credit_msg (getMsg w.sm e.priority e.index) e e.len)) p idx).header.aligned_data_len := by
          intro p hp idx hidx
          rw [Queues.get_set _ _ _ _ hep hp] at hidx
          by_cases hpp : e.priority = p
          · rw [if_pos hpp] at hidx
            subst hpp
            rcases List.mem_append.mp hidx with hold | hnew
            · obtain ⟨hlt, hfull⟩ := hdone e.priority hep idx hold
              refine ⟨by rw [hlen2 _ _ hep]; exact hlt, ?_⟩
              by_cases htag : e.index = idx
              · exact hfull_step idx htag hlt hfull
              · rw [hget_ne _ e.priority idx hep (fun hc => htag hc.2)]
                exact hfull
            · simp only [List.mem_singleton] at hnew
              subst hnew
              refine ⟨by rw [hlen2 _ _ hep]; exact hei, ?_⟩
              rw [hget_self]
              have hb := hbud e.priority e.index hep hei
              rw [entSum_cons, if_pos ⟨rfl, rfl⟩] at hb
              rw [credit_msg_bytes, credit_msg_header] at hcond ⊢
              omega
          · rw [if_neg hpp] at hidx
            obtain ⟨hlt, hfull⟩ := hdone p hp idx hidx
            refine ⟨by rw [hlen2 _ _ hp]; exact hlt, ?_⟩
            rw [hget_ne _ p idx hp (fun hc => hpp hc.1)]
            exact hfull
        obtain ⟨ihl, ihm, ihd⟩ := ih (remain - (e.len : Int))
          ⟨setMsg w.sm e.priority e.index
              (credit_msg (getMsg w.sm e.priority e.index) e e.len),
            w.done.set e.priority (w.done.get e.priority ++ [e.index]),
            w.total_done + 1⟩
          hr (hents2 _) hbud2 hdone2
        refine ⟨?_, ?_, ?_⟩
        · intro p hp
          rw [ihl p hp]
          exact hlen2 _ p hp
        · intro p i hp hi
          have hi2 : i < ((setMsg w.sm e.priority e.index
              (credit_msg (getMsg w.sm e.priority e.index) e e.len)).get p).length := by
            rw [hlen2 _ p hp]
            exact hi
          obtain ⟨hh, hmono, hbound⟩ := ihm p i hp hi2
          by_cases htag : e.priority = p ∧ e.index = i
          · obtain ⟨h1, h2⟩ := htag
            subst h1
            subst h2
            rw [hget_self] at hh hmono
            rw [credit_msg_header] at hh
            rw [credit_msg_bytes] at hmono
            exact ⟨hh, by omega, hbound⟩
          · rw [hget_ne _ p i hp htag] at hh hmono
            exact ⟨hh, hmono, hbound⟩
        · exact ihd
      · next hcond =>
        have hdone2 : ∀ p, p < 3 → ∀ idx ∈ w.done.get p,
            idx < ((setMsg w.sm e.priority e.index
                (credit_msg (getMsg w.sm e.priority e.index) e e.len)).get p).length ∧
            (getMsg (setMsg w.sm e.priority e.index
                (credit_msg (getMsg w.sm e.priority e.index) e e.len)) p idx).bytes_sent =
              c.MSG_HEADER_LENGTH +
                (getMsg (setMsg w.sm e.priority e.index
                  (credit_msg (getMsg w.sm e.priority e.index) e e.len)) p idx).header.aligned_data_len := by
          intro p hp idx hidx
          obtain ⟨hlt, hfull⟩ := hdone p hp idx hidx
          refine ⟨by rw [hlen2 _ _ hp]; exact hlt, ?_⟩
          by_cases htag : e.priority = p ∧ e.index = idx
          · obtain ⟨h1, h2⟩ := htag
            subst h1
            exact hfull_step idx h2 hlt hfull
          · rw [hget_ne _ p idx hp htag]
            exact hfull
        obtain ⟨ihl, ihm, ihd⟩ := ih (remain - (e.len : Int))
          ⟨setMsg w.sm e.priority e.index
              (credit_msg (getMsg w.sm e.priority e.index) e e.len),
            w.done, w.total_done⟩
          hr (hents2 _) hbud2 hdone2
        refine ⟨?_, ?_, ?_⟩
        · intro p hp
          rw [ihl p hp]
          exact hlen2 _ p hp
        · intro p i hp hi
          have hi2 : i < ((setMsg w.sm e.priority e.index
              (credit_msg (getMsg w.sm e.priority e.index) e e.len)).get p).length := by
            rw [hlen2 _ p hp]
            exact hi
          obtain ⟨hh, hmono, hbound⟩ := ihm p i hp hi2
          by_cases htag : e.priority = p ∧ e.index = i
          · obtain ⟨h1, h2⟩ := htag
            subst h1
            subst h2
            rw [hget_self] at hh hmono
            rw [credit_msg_header] at hh
            rw [credit_msg_bytes] at hmono
            exact ⟨hh, by omega, hbound⟩
          · rw [hget_ne _ p i hp htag] at hh hmono
            exact ⟨hh, hmono, hbound⟩
        · exact ihd
    · rw [if_neg hr]
      have hlen2 : ∀ v : OutMessage, ∀ p', p' < 3 →
          ((setMsg w.sm e.priority e.index v).get p').length =
            (w.sm.get p').length :=
        fun v p' hp' => setMsg_length w.sm e.priority e.index v p' hep hp'
      have hget_self : ∀ v : OutMessage,
          getMsg (setMsg w.sm e.priority e.index v) e.priority e.index = v :=
        fun v => getMsg_setMsg_self w.sm e.priority e.index v hep hei
      have hget_ne : ∀ v : OutMessage, ∀ p i, p < 3 →
          ¬ (e.priority = p ∧ e.index = i) →
          getMsg (setMsg w.sm e.priority e.index v) p i = getMsg w.sm p i :=
        fun v p i hp hne => getMsg_setMsg_ne w.sm e.priority e.index p i v hep hp hne
      have hadd : (remain.toNat : Nat) ≤ e.len := by omega
      refine ⟨fun p hp => hlen2 _ p hp, ?_, ?_⟩
      · intro p i hp hi
        by_cases htag : e.priority = p ∧ e.index = i
        · obtain ⟨h1, h2⟩ := htag
          subst h1
          subst h2
          have hb := hbud e.priority e.index hep hei
          have hhead := entSum_head_le e rest
          rw [hget_self, credit_msg_bytes, credit_msg_header]
          refine ⟨rfl, by omega, by omega⟩
        · rw [hget_ne _ p i hp htag]
          have hb := hbud p i hp hi
          refine ⟨rfl, le_refl _, by omega⟩
      · intro p hp idx hidx
        obtain ⟨hlt, hfull⟩ := hdone p hp idx hidx
        refine ⟨by rw [hlen2 _ _ hp]; exact hlt, ?_⟩
        by_cases htag : e.priority = p ∧ e.index = idx
        · obtain ⟨h1, h2⟩ := htag
          subst h1
          subst h2
          have hb := hbud e.priority e.index hep hei
          have hhead := entSum_head_le e rest
          have hz : e.len = 0 := by omega
          exact absurd hr (by omega)
        · rw [hget_ne _ p idx hp htag]
          exact hfull

/-- The released list of a positive `writev` on the partial-accounting
path: empty when nothing completed, else the per-priority done messages
in release order. -/
theorem deal_write_event_wrote_released (c : NioConsts) (s : SockContext)
    (n : Nat) (hv : ¬ (fetch_msgs c s).vec.length = 0) (hn : ¬ n = 0)
    (hfast : ¬ (n = (fetch_msgs c s).total_bytes ∧
      (fetch_msgs c s).last_msg_complete = true)) :
    (deal_write_event c s (.wrote n)).released =
      (if (apply_walk c (fetch_msgs c s).vec (n : Int)
            ⟨(fetch_msgs c s).sm, ⟨[], [], []⟩, 0⟩).total_done = 0 then []
       else
        ((apply_walk c (fetch_msgs c s).vec (n : Int)
            ⟨(fetch_msgs c s).sm, ⟨[], [], []⟩, 0⟩).done.get 0).map
          (getMsg (apply_walk c (fetch_msgs c s).vec (n : Int)
            ⟨(fetch_msgs c s).sm, ⟨[], [], []⟩, 0⟩).sm 0) ++
        ((apply_walk c (fetch_msgs c s).vec (n : Int)
            ⟨(fetch_msgs c s).sm, ⟨[], [], []⟩, 0⟩).done.get 1).map
          (getMsg (apply_walk c (fetch_msgs c s).vec (n : Int)
            ⟨(fetch_msgs c s).sm, ⟨[], [], []⟩, 0⟩).sm 1) ++
        ((apply_walk c (fetch_msgs c s).vec (n : Int)
            ⟨(fetch_msgs c s).sm, ⟨[], [], []⟩, 0⟩).done.get 2).map
          (getMsg (apply_walk c (fetch_msgs c s).vec (n : Int)
            ⟨(fetch_msgs c s).sm, ⟨[], [], []⟩, 0⟩).sm 2)) := by
  simp only [deal_write_event, if_neg hv, if_neg hn, if_neg hfast]
  split <;> rfl

/-- C4: for every message processed by `deal_write_event`'s accounting
walk (`nio.cc:903-954`), `bytes_sent` never decreases in a call and never
exceeds `MSG_HEADER_LENGTH + aligned_data_len`; and on the accounting
path a message is released (`release_out_message`, `nio.cc:1018`) only
when its `bytes_sent` equals exactly
`MSG_HEADER_LENGTH + aligned_data_len` — the hypotheses are the state
invariants (`queue_index` in range, every queued message well-formed). -/
theorem deal_write_event_accounting (c : NioConsts) (s : SockContext) (n : Nat)
    (hq : s.queue_index < 3)
    (hwf0 : ∀ m ∈ s.send_queues.q0, OutMessageWf c m)
    (hwf1 : ∀ m ∈ s.send_queues.q1, OutMessageWf c m)
    (hwf2 : ∀ m ∈ s.send_queues.q2, OutMessageWf c m) :
    (∀ p i, p < 3 → i < ((fetch_msgs c s).sm.get p).length →
      (getMsg (fetch_msgs c s).sm p i).bytes_sent ≤
        (getMsg (apply_walk c (fetch_msgs c s).vec (n : Int)
          ⟨(fetch_msgs c s).sm, ⟨[], [], []⟩, 0⟩).sm p i).bytes_sent ∧
      (getMsg (apply_walk c (fetch_msgs c s).vec (n : Int)
          ⟨(fetch_msgs c s).sm, ⟨[], [], []⟩, 0⟩).sm p i).bytes_sent ≤
        c.MSG_HEADER_LENGTH +
          (getMsg (apply_walk c (fetch_msgs c s).vec (n : Int)
            ⟨(fetch_msgs c s).sm, ⟨[], [], []⟩, 0⟩).sm p i).header.aligned_data_len) ∧
    (¬ (n = (fetch_msgs c s).total_bytes ∧
        (fetch_msgs c s).last_msg_complete = true) →
      ∀ m ∈ (deal_write_event c s (.wrote n)).released,
        m.bytes_sent = c.MSG_HEADER_LENGTH + m.header.aligned_data_len) := by
  obtain ⟨hie, hib⟩ := fetch_msgs_inv c s hq hwf0 hwf1 hwf2
  have hdone0 : ∀ p, p < 3 →
      ∀ idx ∈ ((⟨(fetch_msgs c s).sm, ⟨[], [], []⟩, 0⟩ : WalkState).done.get p),
      idx < ((⟨(fetch_msgs c s).sm, ⟨[], [], []⟩, 0⟩ : WalkState).sm.get p).length ∧
      (getMsg (⟨(fetch_msgs c s).sm, ⟨[], [], []⟩, 0⟩ : WalkState).sm p idx).bytes_sent =
        c.MSG_HEADER_LENGTH +
          (getMsg (⟨(fetch_msgs c s).sm, ⟨[], [], []⟩, 0⟩ : WalkState).sm p idx).header.aligned_data_len := by
    intro p hp idx hidx
    rw [show (⟨(fetch_msgs c s).sm, ⟨[], [], []⟩, 0⟩ : WalkState).done =
        (⟨[], [], []⟩ : Queues Nat) from rfl, Queues.get_nil] at hidx
    cases hidx
  obtain ⟨ihl, ihm, ihd⟩ := apply_walk_spec c (fetch_msgs c s).vec (n : Int)
    ⟨(fetch_msgs c s).sm, ⟨[], [], []⟩, 0⟩ (Int.ofNat_nonneg n) hie hib hdone0
  constructor
  · intro p i hp hi
    obtain ⟨-, hmono, hbound⟩ := ihm p i hp hi
    exact ⟨hmono, hbound⟩
  · intro hslow m hm
    by_cases hv : (fetch_msgs c s).vec.length = 0
    · rw [show (deal_write_event c s (.wrote n)).released = [] from by
        simp only [deal_write_event, hv, if_pos trivial, if_true]] at hm
      cases hm
    · by_cases hn0 : n = 0
      · rw [show (deal_write_event c s (.wrote n)).released = [] from by
          simp only [deal_write_event, if_neg hv, hn0, if_pos trivial, if_true]] at hm
        cases hm
      · rw [deal_write_event_wrote_released c s n hv hn0 hslow] at hm
        split at hm
        · cases hm
        · rcases List.mem_append.mp hm with hm | hm
          · rcases List.mem_append.mp hm with hm | hm
            · rcases List.mem_map.mp hm with ⟨idx, hidx, rfl⟩
              exact (ihd 0 (by omega) idx hidx).2
            · rcases List.mem_map.mp hm with ⟨idx, hidx, rfl⟩
              exact (ihd 1 (by omega) idx hidx).2
          · rcases List.mem_map.mp hm with ⟨idx, hidx, rfl⟩
            exact (ihd 2 (by omega) idx hidx).2

/-- Witness for C4 at a concrete input: one 8-byte inline message
(40 bytes with header), `writev` acknowledges 10 bytes — a partial write
of the header slot.  The walked message's cursor grows from 0 to a value
within the 40-byte total. -/
theorem deal_write_event_accounting_witness :
    (getMsg (fetch_msgs ⟨32, 8, 4, 1024, 4096, 2097152⟩
        ⟨⟨[⟨⟨5, 8, 8⟩, 0, .inline, []⟩], [], []⟩, 0, 0, 4,
          ⟨0, 0, 0, 0, 0, 0, 0, 0⟩⟩).sm 0 0).bytes_sent ≤
      (getMsg (apply_walk ⟨32, 8, 4, 1024, 4096, 2097152⟩
        (fetch_msgs ⟨32, 8, 4, 1024, 4096, 2097152⟩
          ⟨⟨[⟨⟨5, 8, 8⟩, 0, .inline, []⟩], [], []⟩, 0, 0, 4,
            ⟨0, 0, 0, 0, 0, 0, 0, 0⟩⟩).vec ((10 : Nat) : Int)
        ⟨(fetch_msgs ⟨32, 8, 4, 1024, 4096, 2097152⟩
          ⟨⟨[⟨⟨5, 8, 8⟩, 0, .inline, []⟩], [], []⟩, 0, 0, 4,
            ⟨0, 0, 0, 0, 0, 0, 0, 0⟩⟩).sm, ⟨[], [], []⟩, 0⟩).sm 0 0).bytes_sent ∧
    (getMsg (apply_walk ⟨32, 8, 4, 1024, 4096, 2097152⟩
        (fetch_msgs ⟨32, 8, 4, 1024, 4096, 2097152⟩
          ⟨⟨[⟨⟨5, 8, 8⟩, 0, .inline, []⟩], [], []⟩, 0, 0, 4,
            ⟨0, 0, 0, 0, 0, 0, 0, 0⟩⟩).vec ((10 : Nat) : Int)
        ⟨(fetch_msgs ⟨32, 8, 4, 1024, 4096, 2097152⟩
          ⟨⟨[⟨⟨5, 8, 8⟩, 0, .inline, []⟩], [], []⟩, 0, 0, 4,
            ⟨0, 0, 0, 0, 0, 0, 0, 0⟩⟩).sm, ⟨[], [], []⟩, 0⟩).sm 0 0).bytes_sent ≤
      (⟨32, 8, 4, 1024, 4096, 2097152⟩ : NioConsts).MSG_HEADER_LENGTH +
        (getMsg (apply_walk ⟨32, 8, 4, 1024, 4096, 2097152⟩
          (fetch_msgs ⟨32, 8, 4, 1024, 4096, 2097152⟩
            ⟨⟨[⟨⟨5, 8, 8⟩, 0, .inline, []⟩], [], []⟩, 0, 0, 4,
              ⟨0, 0, 0, 0, 0, 0, 0, 0⟩⟩).vec ((10 : Nat) : Int)
          ⟨(fetch_msgs ⟨32, 8, 4, 1024, 4096, 2097152⟩
            ⟨⟨[⟨⟨5, 8, 8⟩, 0, .inline, []⟩], [], []⟩, 0, 0, 4,
              ⟨0, 0, 0, 0, 0, 0, 0, 0⟩⟩).sm, ⟨[], [], []⟩,
            0⟩).sm 0 0).header.aligned_data_len :=
  (deal_write_event_accounting ⟨32, 8, 4, 1024, 4096, 2097152⟩
      ⟨⟨[⟨⟨5, 8, 8⟩, 0, .inline, []⟩], [], []⟩, 0, 0, 4,
        ⟨0, 0, 0, 0, 0, 0, 0, 0⟩⟩ 10
      (by decide) (by decide) (by decide) (by decide)).1 0 0
    (by decide) (by decide)
